import Mathlib

/-!
Verification of the name-resolution and linking stage of wollok-ts
(`src/linker.ts`), via a shallow embedding in Lean 4.

Modelling conventions:
* Nodes (`TNode`) carry a numeric `id`, a data record (`NData`: kind, optional
  name, the `isGeneric` flag of imports, and a `source` string used in error
  messages), and their children as a single list.  In `model.ts` a package
  stores `imports` and `members` in two separate fields; here the import
  children of a package are the children of kind `importK` and the members are
  the remaining children (imports are listed first by the builders).
* Scopes are mutable objects in the source; here they live in a `Store`, an
  association list from scope id to `LocalScope`.  The scope created for the
  node with id `i` is stored under key `i`; the auxiliary import scopes that
  `assignScopes` creates (which belong to no node) are stored under fresh keys
  that start past all node ids.
* `LocalScope.resolve` in the source recurses through `containerScope`
  references; the embedding `resolve` takes an explicit fuel argument that
  bounds that recursion depth (the source would not terminate on a cyclic
  container chain either; the linker only ever builds finite chains).
* `uuid()` is modelled as a deterministic counter, assigning pre-order ids,
  following the spec's design note that the fresh-id mechanism be replaced by
  an explicit id generator.
-/

namespace WollokLinker

abbrev Name := String

/-- Node kinds (the subset of `model.ts` kinds that `linker.ts` inspects). -/
inductive NK where
  | environment
  | pkg
  | classK
  | mixinK
  | singletonK
  | programK
  | testK
  | reference
  | field
  | parameter
  | methodK
  | importK
  deriving DecidableEq, Repr

/-- `node.is('Entity')` — named declarations contributing to their container. -/
def isEntity : NK → Bool
  | NK.pkg | NK.classK | NK.mixinK | NK.singletonK | NK.programK | NK.testK => true
  | _ => false

/-- `node.is('Module')` — class, mixin or singleton. -/
def isModule : NK → Bool
  | NK.classK | NK.mixinK | NK.singletonK => true
  | _ => false

/-- The kind-specific payload of a node that the linker reads. -/
structure NData where
  kind : NK
  name : Option Name
  isGeneric : Bool
  source : String
  deriving DecidableEq, Repr

/-- A node of the syntax tree: id, payload, children. -/
inductive TNode where
  | mk (id : Nat) (data : NData) (children : List TNode)

def TNode.id : TNode → Nat
  | .mk i _ _ => i

def TNode.data : TNode → NData
  | .mk _ d _ => d

def TNode.children : TNode → List TNode
  | .mk _ _ cs => cs

mutual

def decEqT : (a b : TNode) → Decidable (a = b)
  | .mk i d cs, .mk i' d' cs' =>
    if h1 : i = i' then
      if h2 : d = d' then
        match decEqL cs cs' with
        | isTrue h3 => isTrue (by rw [h1, h2, h3])
        | isFalse h3 => isFalse (fun e => h3 (by injection e))
      else isFalse (fun e => h2 (by injection e))
    else isFalse (fun e => h1 (by injection e))

def decEqL : (as bs : List TNode) → Decidable (as = bs)
  | [], [] => isTrue rfl
  | [], _ :: _ => isFalse (fun e => List.noConfusion e)
  | _ :: _, [] => isFalse (fun e => List.noConfusion e)
  | x :: xs, y :: ys =>
    match decEqT x y with
    | isTrue h1 =>
      match decEqL xs ys with
      | isTrue h2 => isTrue (by rw [h1, h2])
      | isFalse h2 => isFalse (fun e => h2 (by injection e))
    | isFalse h1 => isFalse (fun e => h1 (by injection e))

end

instance : DecidableEq TNode := decEqT

/-- `node.imports` — the import children of a (package) node. -/
def importsOf (n : TNode) : List TNode :=
  n.children.filter (fun c => c.data.kind = NK.importK)

/-- `node.members` — the non-import children of a node. -/
def membersOf (n : TNode) : List TNode :=
  n.children.filter (fun c => ¬ c.data.kind = NK.importK)

-- ═══════════════════════════════════════════════════════════════════════════
-- MERGING (`mergePackage`, linker.ts lines 14–27)
-- ═══════════════════════════════════════════════════════════════════════════

mutual

def heightT (n : TNode) : Nat :=
  match n with
  | .mk _ _ cs => heightL cs + 1

def heightL (cs : List TNode) : Nat :=
  match cs with
  | [] => 0
  | c :: rest => max (heightT c) (heightL rest)

end

/-- The recursion of `mergePackage`, with an explicit structural bound `gas`
on the nesting depth of the merged packages (the recursion descends into the
members of `isolated`, so `heightT isolated` steps always suffice; see
`mergePackageGo_congr` and `mergePackage_eq`). -/
def mergePackageGo (gas : Nat) (members : List TNode) (isolated : TNode) : List TNode :=
  match gas with
  | 0 => members
  | g + 1 =>
    if ¬ isolated.data.kind = NK.pkg then
      members.filter (fun m => ¬ m.data.name = isolated.data.name) ++ [isolated]
    else
      match members.find? (fun m => m.data.kind = NK.pkg ∧ m.data.name = isolated.data.name) with
      | none => members ++ [isolated]
      | some existent =>
          members.filter (fun m => ¬ m = existent) ++
            [TNode.mk existent.id existent.data
              (importsOf existent ++
                (membersOf isolated).foldl (fun acc i => mergePackageGo g acc i)
                  (membersOf existent))]

/-- `mergePackage(members, isolated)` from linker.ts: fold one new top-level
entity into an already-merged member list.  Non-packages replace any
same-named member and are appended; a package colliding with an existing
same-named package is merged recursively (keeping every field of the existing
package except the member list) and the merged package is appended after the
surviving members.  The recursion is the one of `mergePackageGo`, run with an
always-sufficient depth bound; the source shape of the recursion is the
theorem `mergePackage_eq`. -/
def mergePackage (members : List TNode) (isolated : TNode) : List TNode :=
  mergePackageGo (heightT isolated) members isolated

/-- `isolateds.reduce(mergePackage, members)` — fold a list of new entities
into a member list, one at a time. -/
def mergeAll (isolateds : List TNode) (members : List TNode) : List TNode :=
  match isolateds with
  | [] => members
  | i :: rest => mergeAll rest (mergePackage members i)


-- ═══════════════════════════════════════════════════════════════════════════
-- SCOPES (`LocalScope`, linker.ts lines 33–65)
-- ═══════════════════════════════════════════════════════════════════════════

abbrev Contribution := Name × Nat

/-- One scope: a local binding table (insertion-ordered, as a JS `Map`), the
ordered list of included scopes and the optional container scope, both as
scope ids into a `Store`. -/
structure LocalScope where
  contributions : List Contribution
  includedScopes : List Nat
  containerScope : Option Nat
  deriving DecidableEq, Repr

/-- The scope arena: scope id → scope.  The scope of the node with id `i` is
stored under key `i`. -/
abbrev Store := List (Nat × LocalScope)

def getScope (st : Store) (i : Nat) : Option LocalScope :=
  (st.find? (fun p => p.1 = i)).map (fun p => p.2)

def putScope (st : Store) (i : Nat) (s : LocalScope) : Store :=
  if st.any (fun p => p.1 = i) then
    st.map (fun p => if p.1 = i then (i, s) else p)
  else st ++ [(i, s)]

def modifyScope (st : Store) (i : Nat) (f : LocalScope → LocalScope) : Store :=
  st.map (fun p => if p.1 = i then (p.1, f p.2) else p)

/-- `Map.get` on the binding table: the value under the first (unique)
occurrence of the key. -/
def getBinding (m : List Contribution) (k : Name) : Option Nat :=
  (m.find? (fun c => c.1 = k)).map (fun c => c.2)

/-- `Map.set`: overwrite the binding in place if the key is present, append a
new entry otherwise. -/
def setBinding (m : List Contribution) (k : Name) (v : Nat) : List Contribution :=
  if m.any (fun c => c.1 = k) then
    m.map (fun c => if c.1 = k then (k, v) else c)
  else m ++ [(k, v)]

/-- `LocalScope.register`: set every listed contribution, in order (so the
last listed contribution for a name wins). -/
def register (s : LocalScope) (contribs : List Contribution) : LocalScope :=
  ⟨contribs.foldl (fun m c => setBinding m c.1 c.2) s.contributions,
   s.includedScopes, s.containerScope⟩

/-- `LocalScope.resolve(name, allowLookup)` (linker.ts lines 44–54).  The
`for (includedScope of includedScopes)` loop returning the first hit is
`List.findSome?`.  The `fuel` argument bounds the depth of the recursion; the
source has no such bound and simply does not terminate on (never-constructed)
cyclic container chains. -/
def resolve (st : Store) (fuel : Nat) (sid : Nat) (name : Name)
    (allowLookup : Bool) : Option Nat :=
  match fuel with
  | 0 => none
  | f + 1 =>
    match getScope st sid with
    | none => none
    | some s =>
      let contributed := getBinding s.contributions name
      if contributed.isSome || !allowLookup then contributed
      else
        match s.includedScopes.findSome? (fun inc => resolve st f inc name false) with
        | some inherited => some inherited
        | none =>
          match s.containerScope with
          | some c => resolve st f c name allowLookup
          | none => none

/-- Modelled from the spec: `divideOn` from `src/extensions.ts` (not under
`src/`) splits a list at the first occurrence of the separator into the part
before it and the part after it; if the separator does not occur the whole
input is the first component and the second is empty. -/
def divideOnList (sep : Char) : List Char → List Char × List Char
  | [] => ([], [])
  | c :: cs =>
    if c = sep then ([], cs)
    else (c :: (divideOnList sep cs).1, (divideOnList sep cs).2)

/-- String version of `divideOnList`, as used by `resolveQualified`. -/
def divideOn (sep : Char) (s : String) : String × String :=
  let p := divideOnList sep s.toList
  (String.mk p.1, String.mk p.2)

/-- Linking errors: the `throw`s of linker.ts. -/
inductive LinkErr where
  /-- `Could not resolve qualified name ...` (linker.ts line 61). -/
  | unresolvedQualified (start : String)
  /-- `Unlinked reference to ... in ...` (linker.ts line 150). -/
  | unlinkedReference (name : String) (source : String)
  /-- A TS runtime crash on malformed input (dereferencing a missing field);
  unreachable for trees built by the builders. -/
  | modelError (msg : String)
  deriving DecidableEq, Repr


/-- The recursion of `resolveQualified`, with an explicit structural bound
`qf` on the number of qualified-name segments (each recursive call strictly
shrinks the name, so `q.length + 1` steps always suffice; see
`resolveQualifiedGo_congr` and `resolveQualified_eq`). -/
def resolveQualifiedGo (st : Store) (fuel : Nat) :
    Nat → Nat → Name → Bool → Except LinkErr Nat
  | 0, _, _, _ => Except.error (LinkErr.modelError "qualified-name bound exhausted")
  | qf + 1, sid, q, allowLookup =>
    match resolve st fuel sid (divideOn '.' q).1 allowLookup with
    | none => Except.error (LinkErr.unresolvedQualified (divideOn '.' q).1)
    | some root =>
      if ¬ (divideOn '.' q).2.length = 0 then
        resolveQualifiedGo st fuel qf root (divideOn '.' q).2 false
      else Except.ok root

/-- `LocalScope.resolveQualified(qualifiedName, allowLookup)` (linker.ts
lines 57–64): split at the first `.`, resolve the head via `resolve` (throw a
linking error if it is not found), and if a rest remains recurse on it in the
resolved node's own scope with `allowLookup = false`.  The recursion is the
one of `resolveQualifiedGo`, run with an always-sufficient segment bound; the
source shape of the recursion is the theorem `resolveQualified_eq`. -/
def resolveQualified (st : Store) (fuel : Nat) (sid : Nat) (q : Name)
    (allowLookup : Bool) : Except LinkErr Nat :=
  resolveQualifiedGo st fuel (q.length + 1) sid q allowLookup


-- ═══════════════════════════════════════════════════════════════════════════
-- SCOPE ASSIGNMENT (`assignScopes`, linker.ts lines 79–121)
-- ═══════════════════════════════════════════════════════════════════════════

/-- An entry of the flattened environment: the node, its parent and its
grandparent (the latter two are `none` at and just below the root). -/
abbrev FlatEntry := TNode × Option TNode × Option TNode

mutual

/-- Modelled from the spec: `Node.forEach` of `model.ts` (not under `src/`)
visits every node of the tree with its parent, in top-down (pre-order) order.
`flatten` lists the visited `(node, parent, grandparent)` triples in that
order. -/
def flatten (gp p : Option TNode) (n : TNode) : List FlatEntry :=
  match n with
  | .mk i d cs => (TNode.mk i d cs, p, gp) :: flattenList p (some (TNode.mk i d cs)) cs

def flattenList (gp p : Option TNode) (cs : List TNode) : List FlatEntry :=
  match cs with
  | [] => []
  | c :: rest => flatten gp p c ++ flattenList gp p rest

end

/-- `scopeContribution` (linker.ts lines 68–76): entities, fields and
parameters contribute their own name, bound to themselves, provided the name
is truthy (in JS an absent name and the empty string are both falsy). -/
def scopeContribution (n : TNode) : List Contribution :=
  if isEntity n.data.kind || n.data.kind = NK.field || n.data.kind = NK.parameter then
    match n.data.name with
    | some nm => if nm = "" then [] else [(nm, n.id)]
    | none => []
  else []

/-- Pass 1 of `assignScopes` (linker.ts lines 80–89), one node: create a
fresh scope whose container is the parent's scope — except for a Reference
whose parent is a Class or Mixin, which gets the grandparent's scope — and
register entity contributions into the parent's scope. -/
def pass1Step (st : Store) (e : FlatEntry) : Store :=
  match e with
  | (n, p, gp) =>
    let container : Option Nat :=
      match p with
      | some pp =>
        if n.data.kind = NK.reference ∧ (pp.data.kind = NK.classK ∨ pp.data.kind = NK.mixinK)
        then (gp.map (fun g => g.id))
        else some pp.id
      | none => none
    let st1 := putScope st n.id ⟨[], [], container⟩
    if isEntity n.data.kind then
      match p with
      | some pp => modifyScope st1 pp.id (fun s => register s (scopeContribution n))
      | none => st1
    else st1

def pass1 (flat : List FlatEntry) : Store :=
  flat.foldl pass1Step []

/-- The container scope that Pass 1 chooses for a node, given its parent and
grandparent: the grandparent's scope for a Reference under a Class or Mixin,
the parent's scope otherwise (and no container at the root). -/
def pass1Container (n : TNode) (p gp : Option TNode) : Option Nat :=
  match p with
  | some pp =>
    if n.data.kind = NK.reference ∧ (pp.data.kind = NK.classK ∨ pp.data.kind = NK.mixinK)
    then gp.map (fun g => g.id)
    else some pp.id
  | none => none

/-- The always-visible global packages (linker.ts line 8). -/
def GLOBAL_PACKAGES : List Name := ["wollok.lang", "wollok.lib"]

/-- Look a node up by id in the flattened environment (the
`getNodeById` cache of the Environment). -/
def nodeById (flat : List FlatEntry) (i : Nat) : Option TNode :=
  (flat.find? (fun e => e.1.id = i)).map (fun e => e.1)

/-- The contributions of the members of the global packages, resolved by
qualified name from the environment's own scope (linker.ts lines 92–95). -/
def globalContributions (flat : List FlatEntry) (st : Store) (envId : Nat) :
    Except LinkErr (List Contribution) :=
  (GLOBAL_PACKAGES.mapM (fun g =>
    match resolveQualified st (st.length + 1) envId g true with
    | Except.error err => Except.error err
    | Except.ok r =>
      match nodeById flat r with
      | some pkgNode => Except.ok ((membersOf pkgNode).flatMap scopeContribution)
      | none => Except.error (LinkErr.modelError "global package node not in tree"))).map
    List.flatten

/-- The environment branch of pass 2 (linker.ts lines 92–95). -/
def stepEnv (flat : List FlatEntry) (st : Store) (n : TNode) : Except LinkErr Store :=
  if n.data.kind = NK.environment then
    match globalContributions flat st n.id with
    | Except.error err => Except.error err
    | Except.ok cs => Except.ok (modifyScope st n.id (fun s => register s cs))
  else Except.ok st

/-- `imported.entity.name`: the (possibly qualified) name carried by the
reference child of the import. -/
def entityNameOf (imp : TNode) : Except LinkErr Name :=
  match imp.children.find? (fun c => c.data.kind = NK.reference) with
  | some ref =>
    match ref.data.name with
    | some nm => Except.ok nm
    | none => Except.error (LinkErr.modelError "import reference has no name")
  | none => Except.error (LinkErr.modelError "import has no entity reference")

/-- The bindings of the auxiliary import scope: for each simple import, the
resolved target entity under its own name (linker.ts lines 103–106).  A
resolved entity with an absent name would be bound under the JS value
`undefined` — a key no string lookup can ever produce — so it is modelled as
contributing nothing. -/
def simpleImportBindings (flat : List FlatEntry) (st : Store) (fuel : Nat)
    (imps : List TNode) : Except LinkErr (List Contribution) :=
  (imps.mapM (fun imp =>
    match entityNameOf imp with
    | Except.error err => Except.error err
    | Except.ok en =>
      match resolveQualified st fuel imp.id en true with
      | Except.error err => Except.error err
      | Except.ok r =>
        match nodeById flat r with
        | some entity =>
          match entity.data.name with
          | some nm => Except.ok [(nm, r)]
          | none => Except.ok []
        | none => Except.error (LinkErr.modelError "imported entity not in tree"))).map
    List.flatten

/-- The resolved target scopes of the generic imports, in declaration order
(linker.ts lines 108–110); the scope of the node with id `r` is the scope
with id `r`. -/
def genericImportTargets (st : Store) (fuel : Nat) (imps : List TNode) :
    Except LinkErr (List Nat) :=
  imps.mapM (fun imp =>
    match entityNameOf imp with
    | Except.error err => Except.error err
    | Except.ok en => resolveQualified st fuel imp.id en true)

/-- The package-with-imports branch of pass 2 (linker.ts lines 97–111):
partition the imports into generic and simple ones, build the auxiliary
scope of import bindings from the simple imports, and prepend it with the
generic imports' target scopes to the package's included scopes. -/
def stepImports (flat : List FlatEntry) (st : Store) (fresh : Nat) (n : TNode) :
    Except LinkErr (Store × Nat) :=
  if n.data.kind = NK.pkg ∧ ¬ importsOf n = [] then
    match simpleImportBindings flat st (st.length + 1)
        ((importsOf n).filter (fun imp => !imp.data.isGeneric)) with
    | Except.error err => Except.error err
    | Except.ok binds =>
      match genericImportTargets st (st.length + 1)
          ((importsOf n).filter (fun imp => imp.data.isGeneric)) with
      | Except.error err => Except.error err
      | Except.ok gens =>
        let importScope := register ⟨[], [], none⟩ binds
        let st1 := putScope st fresh importScope
        let st2 := modifyScope st1 n.id
          (fun s => ⟨s.contributions, fresh :: gens ++ s.includedScopes, s.containerScope⟩)
        Except.ok (st2, fresh + 1)
  else Except.ok (st, fresh)

/-- The module branch of pass 2 (linker.ts lines 113–117): append the scopes
of the module's proper ancestors, in hierarchy order.  `hier` is the
(spec-modelled) `hierarchy()` of `model.ts`: for a module node id it lists
the hierarchy's node ids, the module itself first. -/
def stepModule (hier : Nat → List Nat) (st : Store) (n : TNode) : Store :=
  if isModule n.data.kind then
    modifyScope st n.id
      (fun s => ⟨s.contributions, s.includedScopes ++ (hier n.id).drop 1, s.containerScope⟩)
  else st

/-- The final branch of pass 2 (linker.ts line 119): register the
contributions of non-entity nodes (fields, parameters) into the parent's
scope. -/
def stepContrib (st : Store) (n : TNode) (p : Option TNode) : Store :=
  match p with
  | some pp =>
    if isEntity n.data.kind then st
    else modifyScope st pp.id (fun s => register s (scopeContribution n))
  | none => st

/-- One node of pass 2 of `assignScopes` (linker.ts lines 91–120): the four
branches run in sequence on the same node. -/
def pass2Step (hier : Nat → List Nat) (flat : List FlatEntry) (acc : Store × Nat)
    (e : FlatEntry) : Except LinkErr (Store × Nat) :=
  match stepEnv flat acc.1 e.1 with
  | Except.error err => Except.error err
  | Except.ok stA =>
    match stepImports flat stA acc.2 e.1 with
    | Except.error err => Except.error err
    | Except.ok (stB, freshB) =>
      let stC := stepModule hier stB e.1
      Except.ok (stepContrib stC e.1 e.2.1, freshB)

def pass2From (hier : Nat → List Nat) (flat : List FlatEntry) (acc : Store × Nat) :
    List FlatEntry → Except LinkErr (Store × Nat)
  | [] => Except.ok acc
  | e :: rest =>
    match pass2Step hier flat acc e with
    | Except.error err => Except.error err
    | Except.ok acc' => pass2From hier flat acc' rest

/-- `assignScopes` pass 2, run over the whole flattened environment, starting
from the pass-1 store; fresh ids for auxiliary import scopes start past all
node ids. -/
def pass2 (hier : Nat → List Nat) (flat : List FlatEntry) :
    Except LinkErr (Store × Nat) :=
  pass2From hier flat (pass1 flat, flat.length) flat

-- ═══════════════════════════════════════════════════════════════════════════
-- LINKER (default export, linker.ts lines 128–154)
-- ═══════════════════════════════════════════════════════════════════════════

mutual

/-- `transform(node => node.copy({ id: uuid() }))`, with `uuid()` modelled as
a deterministic counter: rebuild the tree assigning fresh pre-order ids
starting at `next`; also returns the next unused id. -/
def relabel (next : Nat) (n : TNode) : TNode × Nat :=
  match n with
  | .mk _ d cs =>
    let p := relabelList (next + 1) cs
    (.mk next d p.1, p.2)

def relabelList (next : Nat) (cs : List TNode) : List TNode × Nat :=
  match cs with
  | [] => ([], next)
  | c :: rest =>
    let p := relabel next c
    let q := relabelList p.2 rest
    (p.1 :: q.1, q.2)

end

mutual

def countT (n : TNode) : Nat :=
  match n with
  | .mk _ _ cs => 1 + countList cs

def countList (cs : List TNode) : Nat :=
  match cs with
  | [] => 0
  | c :: rest => countT c + countList rest

end

/-- All nodes of a tree, in pre-order. -/
def allNodes (t : TNode) : List TNode :=
  (flatten none none t).map (fun e => e.1)

/-- The `getNodeById` index of the Environment: look the node up by id,
yielding the distinguished result `none` when the id is absent. -/
def getNodeById (t : TNode) (i : Nat) : Option TNode :=
  nodeById (flatten none none t) i

/-- Modelled from the spec: `Reference.target()` of `model.ts` (not under
`src/`) resolves the reference's (possibly qualified) name starting from the
reference's own scope; a linking error during qualified resolution is an
absent target. -/
def targetOf (st : Store) (n : TNode) : Option Nat :=
  match n.data.name with
  | some nm => (resolveQualified st (st.length + 1) n.id nm true).toOption
  | none => none

def envData : NData := ⟨NK.environment, none, false, ""⟩

/-- The linker up to (and including) scope assignment: merge the new packages
into the base members, wrap them in a fresh Environment, assign fresh ids to
every node, and run the two scope passes. -/
def scopedEnv (hier : Nat → List Nat) (news : List TNode) (base : List TNode) :
    Except LinkErr (TNode × Store) :=
  let env := (relabel 0 (TNode.mk 0 envData (mergeAll news base))).1
  match pass2 hier (flatten none none env) with
  | Except.error err => Except.error err
  | Except.ok (st, _) => Except.ok (env, st)

/-- Is this flat entry an unresolvable Reference? (the final validation
check, linker.ts lines 148–151). -/
def refUnresolved (st : Store) (e : FlatEntry) : Bool :=
  if e.1.data.kind = NK.reference then (targetOf st e.1).isNone else false

/-- `node.name` as printed in the unlinked-reference error message (an absent
name prints as the JS `undefined`). -/
def nameStrOf (n : TNode) : String :=
  match n.data.name with
  | some nm => nm
  | none => "undefined"

/-- The default export of linker.ts: build the scoped environment, then fail
on the first Reference that does not resolve — naming the reference and its
originating source location — or return the fully linked environment. -/
def link (hier : Nat → List Nat) (news : List TNode) (base : List TNode) :
    Except LinkErr (TNode × Store) :=
  match scopedEnv hier news base with
  | Except.error err => Except.error err
  | Except.ok (env, st) =>
    match (flatten none none env).find? (refUnresolved st) with
    | some e => Except.error (LinkErr.unlinkedReference (nameStrOf e.1) e.1.data.source)
    | none => Except.ok (env, st)

/-- Scope-stripping: forget every scope's included scopes and container,
keeping only the local binding tables. -/
def stripStore (st : Store) : Store :=
  st.map (fun p => (p.1, ⟨p.2.contributions, [], none⟩))

-- ═══════════════════════════════════════════════════════════════════════════
-- WELL-FORMEDNESS PREDICATES (hypotheses of the algebraic merge claims)
-- ═══════════════════════════════════════════════════════════════════════════

/-- No two entries of the list are equal (pairwise-distinct entity names). -/
def nodupKeys : List (Option Name) → Bool
  | [] => true
  | x :: xs => !(decide (x ∈ xs)) && nodupKeys xs

/-- No two entries of the list are equal (pairwise-distinct node ids). -/
def nodupNat : List Nat → Bool
  | [] => true
  | x :: xs => !(decide (x ∈ xs)) && nodupNat xs

/-- A well-identified flattened environment: node ids are pairwise distinct
and all node and parent ids lie below the node count, so the fresh scope ids
that pass 2 hands out (starting at the node count) never collide with them.
The output of `relabel` satisfies this. -/
def flatOk (flat : List FlatEntry) : Bool :=
  nodupNat (flat.map (fun e => e.1.id)) &&
    flat.all (fun e =>
      decide (e.1.id < flat.length) &&
        (match e.2.1 with
         | some p => decide (p.id < flat.length)
         | none => true))

mutual

/-- Hereditarily well-formed entity: inside every package the member names
are pairwise distinct and the children are the imports followed by the
members (as the builders lay them out). -/
def heredB (n : TNode) : Bool :=
  match n with
  | .mk _ d cs =>
    (if d.kind = NK.pkg then
      nodupKeys ((cs.filter (fun c => ¬ c.data.kind = NK.importK)).map
          (fun c => c.data.name)) &&
        decide (cs = cs.filter (fun c => c.data.kind = NK.importK) ++
          cs.filter (fun c => ¬ c.data.kind = NK.importK))
     else true) && heredAll cs

def heredAll (cs : List TNode) : Bool :=
  match cs with
  | [] => true
  | c :: rest => heredB c && heredAll rest

end

-- ═══════════════════════════════════════════════════════════════════════════
-- DEMONSTRATION INPUTS (used by the claim witnesses)
-- ═══════════════════════════════════════════════════════════════════════════

/-- A store exercising bounded-depth lookup: scope 0 includes scope 1, which
itself includes scope 2; only scope 2 and the container scope 3 bind "x". -/
def stW : Store :=
  [ (0, ⟨[], [1], some 3⟩)
  , (1, ⟨[("y", 10)], [2], none⟩)
  , (2, ⟨[("x", 20)], [], none⟩)
  , (3, ⟨[("x", 30)], [], none⟩) ]

/-- A store for qualified resolution: "a" resolves to node 1 whose scope maps
"b" to node 2. -/
def stQ : Store :=
  [ (0, ⟨[("a", 1)], [], some 3⟩)
  , (1, ⟨[("b", 2)], [], some 3⟩)
  , (2, ⟨[], [], some 3⟩)
  , (3, ⟨[("x", 9)], [], none⟩) ]

/-- An existing package `a` (empty). -/
def exA : TNode := .mk 0 ⟨NK.pkg, some "a", false, ""⟩ []

/-- An existing non-package entity `b`. -/
def exB : TNode := .mk 1 ⟨NK.singletonK, some "b", false, ""⟩ []

/-- A member for the incoming package. -/
def exX : TNode := .mk 2 ⟨NK.singletonK, some "x", false, ""⟩ []

/-- An incoming package also named `a`, with one member. -/
def exA2 : TNode := .mk 3 ⟨NK.pkg, some "a", false, ""⟩ [exX]

/-- What merging `exA2` over `exA` produces: the existing package's id and
payload with the merged member list. -/
def exMergedA : TNode := .mk 0 ⟨NK.pkg, some "a", false, ""⟩ [exX]

/-- An import node carried by the existing package `a`. -/
def exImpOld : TNode := .mk 10 ⟨NK.importK, none, false, "old"⟩ []

/-- A different import node carried by the incoming package `a`. -/
def exImpNew : TNode := .mk 11 ⟨NK.importK, none, true, "new"⟩ []

/-- The existing package `a` with the old import. -/
def exAImp : TNode := .mk 12 ⟨NK.pkg, some "a", false, ""⟩ [exImpOld]

/-- The incoming package `a` with the new import and a member. -/
def exA2Imp : TNode := .mk 13 ⟨NK.pkg, some "a", false, ""⟩ [exImpNew, exX]

/-- A collision-free entity list for the idempotence witness. -/
def exList : List TNode :=
  [ .mk 20 ⟨NK.pkg, some "p", false, ""⟩
      [ .mk 21 ⟨NK.singletonK, some "q", false, ""⟩ []
      , .mk 22 ⟨NK.pkg, some "r", false, ""⟩ [] ]
  , exB ]

/-- The trivial hierarchy (no modules in the demonstration trees). -/
def hierZero : Nat → List Nat := fun _ => []

/-- A raw package `a` holding a singleton `X`. -/
def exPkgA : TNode :=
  .mk 0 ⟨NK.pkg, some "a", false, ""⟩ [ .mk 0 ⟨NK.singletonK, some "X", false, ""⟩ [] ]

/-- A raw package `b` holding a Reference to `a`. -/
def exPkgB : TNode :=
  .mk 0 ⟨NK.pkg, some "b", false, ""⟩ [ .mk 0 ⟨NK.reference, some "a", false, "at-b"⟩ [] ]

/-- A supertype Reference inside a Class. -/
def exC4Ref : TNode := .mk 2 ⟨NK.reference, some "S", false, ""⟩ []

/-- A Class whose only child is the supertype Reference. -/
def exC4Class : TNode := .mk 1 ⟨NK.classK, some "C", false, ""⟩ [exC4Ref]

/-- An environment containing the class. -/
def exC4Root : TNode := .mk 0 ⟨NK.environment, none, false, ""⟩ [exC4Class]

/-- The always-present global packages, as an already-identified tree. -/
def exWollok : TNode :=
  .mk 1 ⟨NK.pkg, some "wollok", false, ""⟩
    [ .mk 2 ⟨NK.pkg, some "lang", false, ""⟩ []
    , .mk 3 ⟨NK.pkg, some "lib", false, ""⟩ [] ]

/-- A package `p` with an entity member `x` (id 5) and a field also named `x`
(id 6): the field is registered in Pass 2 and shadows the entity. -/
def exShadowTree : TNode :=
  .mk 0 ⟨NK.environment, none, false, ""⟩
    [ exWollok
    , .mk 4 ⟨NK.pkg, some "p", false, ""⟩
        [ .mk 5 ⟨NK.singletonK, some "x", false, ""⟩ []
        , .mk 6 ⟨NK.field, some "x", false, ""⟩ [] ] ]

/-- A package `b` with a simple import of the entity `a.X` and a generic
one of the whole package `c`; each import holds its entity Reference. -/
def exC3B : TNode :=
  .mk 8 ⟨NK.pkg, some "b", false, ""⟩
    [ .mk 9 ⟨NK.importK, none, false, ""⟩
        [ .mk 10 ⟨NK.reference, some "a.X", false, ""⟩ [] ]
    , .mk 11 ⟨NK.importK, none, true, ""⟩
        [ .mk 12 ⟨NK.reference, some "c", false, ""⟩ [] ] ]

/-- An environment holding the global packages, a package `a` with a
singleton `X`, a package `c` with another singleton `X`, and the importing
package `b`. -/
def exC3Tree : TNode :=
  .mk 0 ⟨NK.environment, none, false, ""⟩
    [ exWollok
    , .mk 4 ⟨NK.pkg, some "a", false, ""⟩
        [ .mk 5 ⟨NK.singletonK, some "X", false, ""⟩ [] ]
    , .mk 6 ⟨NK.pkg, some "c", false, ""⟩
        [ .mk 7 ⟨NK.singletonK, some "X", false, ""⟩ [] ]
    , exC3B ]

/-- The flattened form of `exC3Tree` and its split around the entry of the
package `b` with the imports (pre-order position 8). -/
def exC3Flat : List FlatEntry := flatten none none exC3Tree

def exC3L1 : List FlatEntry := exC3Flat.take 8

def exC3L2 : List FlatEntry := exC3Flat.drop 9

def exC3EP : FlatEntry := (exC3B, some exC3Tree, none)

/-- The store after pass 2 has processed the first eight entries of
`exC3Flat` (everything before package `b`). -/
def exC3St1 : Store :=
  [ (0, ⟨[("wollok", 1), ("a", 4), ("c", 6), ("b", 8)], [], none⟩)
  , (1, ⟨[("lang", 2), ("lib", 3)], [], some 0⟩)
  , (2, ⟨[], [], some 1⟩)
  , (3, ⟨[], [], some 1⟩)
  , (4, ⟨[("X", 5)], [], some 0⟩)
  , (5, ⟨[], [], some 4⟩)
  , (6, ⟨[("X", 7)], [], some 0⟩)
  , (7, ⟨[], [], some 6⟩)
  , (8, ⟨[], [], some 0⟩)
  , (9, ⟨[], [], some 8⟩)
  , (10, ⟨[], [], some 9⟩)
  , (11, ⟨[], [], some 8⟩)
  , (12, ⟨[], [], some 11⟩) ]

/-- The store after the full pass 2 over `exC3Flat`: package `b` (scope 8)
includes the fresh import scope 13 first and the generic target scope 6
second, and scope 13 binds `X` to the simple import's target 5. -/
def exC3StF : Store :=
  [ (0, ⟨[("wollok", 1), ("a", 4), ("c", 6), ("b", 8)], [], none⟩)
  , (1, ⟨[("lang", 2), ("lib", 3)], [], some 0⟩)
  , (2, ⟨[], [], some 1⟩)
  , (3, ⟨[], [], some 1⟩)
  , (4, ⟨[("X", 5)], [], some 0⟩)
  , (5, ⟨[], [], some 4⟩)
  , (6, ⟨[("X", 7)], [], some 0⟩)
  , (7, ⟨[], [], some 6⟩)
  , (8, ⟨[], [13, 6], some 0⟩)
  , (9, ⟨[], [], some 8⟩)
  , (10, ⟨[], [], some 9⟩)
  , (11, ⟨[], [], some 8⟩)
  , (12, ⟨[], [], some 11⟩)
  , (13, ⟨[("X", 5)], [], none⟩) ]

-- ═══════════════════════════════════════════════════════════════════════════
-- HELPER LEMMAS: merging
-- ═══════════════════════════════════════════════════════════════════════════

theorem heightT_pos (n : TNode) : 1 <= heightT n := by
  cases n with
  | mk i d cs =>
    show 1 <= heightL cs + 1
    omega

theorem heightT_le_heightL (m : TNode) (cs : List TNode) (h : m ∈ cs) :
    heightT m <= heightL cs := by
  induction cs with
  | nil => cases h
  | cons c rest ih =>
    rw [List.mem_cons] at h
    show heightT m <= max (heightT c) (heightL rest)
    rcases h with h | h
    · rw [h]
      exact Nat.le_max_left _ _
    · exact Nat.le_trans (ih h) (Nat.le_max_right _ _)

theorem heightT_membersOf_lt (m n : TNode) (h : m ∈ membersOf n) :
    heightT m < heightT n := by
  cases n with
  | mk i d cs =>
    have hm : m ∈ cs := List.mem_of_mem_filter h
    have := heightT_le_heightL m cs hm
    show heightT m < heightL cs + 1
    omega

theorem mergePackageGo_succ (g : Nat) (members : List TNode) (isolated : TNode) :
    mergePackageGo (g + 1) members isolated =
      if ¬ isolated.data.kind = NK.pkg then
        members.filter (fun m => ¬ m.data.name = isolated.data.name) ++ [isolated]
      else
        match members.find? (fun m => m.data.kind = NK.pkg ∧ m.data.name = isolated.data.name) with
        | none => members ++ [isolated]
        | some existent =>
            members.filter (fun m => ¬ m = existent) ++
              [TNode.mk existent.id existent.data
                (importsOf existent ++
                  (membersOf isolated).foldl (fun acc i => mergePackageGo g acc i)
                    (membersOf existent))] := rfl

theorem mergePackageGo_congr (N : Nat) :
    ∀ (isolated : TNode) (members : List TNode) (a b : Nat),
      heightT isolated <= N → heightT isolated <= a → heightT isolated <= b →
      mergePackageGo a members isolated = mergePackageGo b members isolated := by
  induction N with
  | zero =>
    intro isolated members a b hN _ _
    have := heightT_pos isolated
    omega
  | succ N ih =>
    intro isolated members a b hN ha hb
    have hpos := heightT_pos isolated
    cases a with
    | zero => omega
    | succ a' =>
      cases b with
      | zero => omega
      | succ b' =>
        rw [mergePackageGo_succ, mergePackageGo_succ]
        have hfold : ∀ (ms : List TNode), (∀ m ∈ ms, heightT m < heightT isolated) →
            ∀ (start : List TNode),
            ms.foldl (fun acc i => mergePackageGo a' acc i) start =
              ms.foldl (fun acc i => mergePackageGo b' acc i) start := by
          intro ms
          induction ms with
          | nil => intro _ start; rfl
          | cons m rest ihm =>
            intro hmem start
            rw [List.foldl_cons, List.foldl_cons]
            have h1 : heightT m < heightT isolated := hmem m (List.mem_cons_self m rest)
            rw [ih m start a' b' (by omega) (by omega) (by omega)]
            exact ihm (fun x hx => hmem x (List.mem_cons_of_mem m hx)) _
        by_cases hpkg : ¬ isolated.data.kind = NK.pkg
        · rw [if_pos hpkg, if_pos hpkg]
        · rw [if_neg hpkg, if_neg hpkg]
          cases hfind : members.find?
              (fun m => m.data.kind = NK.pkg ∧ m.data.name = isolated.data.name) with
          | none => rfl
          | some existent =>
            dsimp only
            rw [hfold (membersOf isolated)
              (fun m hm => heightT_membersOf_lt m isolated hm) (membersOf existent)]

theorem foldl_go_eq_mergeAll (g : Nat) (ms : List TNode)
    (h : ∀ m ∈ ms, heightT m <= g) (start : List TNode) :
    ms.foldl (fun acc i => mergePackageGo g acc i) start = mergeAll ms start := by
  induction ms generalizing start with
  | nil => rfl
  | cons m rest ih =>
    rw [List.foldl_cons]
    show List.foldl _ (mergePackageGo g start m) rest = mergeAll (m :: rest) start
    have e1 : mergePackageGo g start m = mergePackage start m := by
      exact mergePackageGo_congr g m start g (heightT m)
        (h m (List.mem_cons_self m rest)) (h m (List.mem_cons_self m rest)) Nat.le.refl
    rw [e1]
    show List.foldl _ (mergePackage start m) rest = mergeAll rest (mergePackage start m)
    exact ih (fun x hx => h x (List.mem_cons_of_mem m hx)) (mergePackage start m)

/-- The recursion of `mergePackage`, in the exact shape of the source
(linker.ts lines 14-27). -/
theorem mergePackage_eq (members : List TNode) (isolated : TNode) :
    mergePackage members isolated =
      if ¬ isolated.data.kind = NK.pkg then
        members.filter (fun m => ¬ m.data.name = isolated.data.name) ++ [isolated]
      else
        match members.find? (fun m => m.data.kind = NK.pkg ∧ m.data.name = isolated.data.name) with
        | none => members ++ [isolated]
        | some existent =>
            members.filter (fun m => ¬ m = existent) ++
              [TNode.mk existent.id existent.data
                (importsOf existent ++ mergeAll (membersOf isolated) (membersOf existent))] := by
  cases isolated with
  | mk i d cs =>
    show mergePackageGo (heightL cs + 1) members (TNode.mk i d cs) = _
    rw [mergePackageGo_succ]
    by_cases hpkg : ¬ (TNode.mk i d cs).data.kind = NK.pkg
    · rw [if_pos hpkg, if_pos hpkg]
    · rw [if_neg hpkg, if_neg hpkg]
      cases hfind : members.find?
          (fun m => m.data.kind = NK.pkg ∧ m.data.name = (TNode.mk i d cs).data.name) with
      | none => rfl
      | some existent =>
        dsimp only
        rw [foldl_go_eq_mergeAll (heightL cs) (membersOf (TNode.mk i d cs))
          (fun m hm => by
            have h1 : m ∈ cs := List.mem_of_mem_filter hm
            exact heightT_le_heightL m cs h1) (membersOf existent)]

-- ═══════════════════════════════════════════════════════════════════════════
-- HELPER LEMMAS: the divide-at-separator split
-- ═══════════════════════════════════════════════════════════════════════════

theorem divideOnList_rest_lt (sep : Char) (l : List Char)
    (h : ¬ (divideOnList sep l).2.length = 0) :
    (divideOnList sep l).2.length < l.length := by
  induction l with
  | nil => simp [divideOnList] at h
  | cons c cs ih =>
    by_cases hc : c = sep
    · have e : divideOnList sep (c :: cs) = ([], cs) := by
        simp [divideOnList, hc]
      rw [e] at h ⊢
      simp only [List.length_cons]
      omega
    · have e : divideOnList sep (c :: cs) =
          (c :: (divideOnList sep cs).1, (divideOnList sep cs).2) := by
        simp [divideOnList, hc]
      rw [e] at h ⊢
      have := ih h
      simp only [List.length_cons]
      omega

theorem divideOn_rest_lt (sep : Char) (s : String)
    (h : ¬ (divideOn sep s).2.length = 0) :
    (divideOn sep s).2.length < s.length := by
  have hs : s.length = s.toList.length := rfl
  have h2 : (divideOn sep s).2.length = (divideOnList sep s.toList).2.length := rfl
  rw [h2] at h ⊢
  rw [hs]
  exact divideOnList_rest_lt sep s.toList h

theorem resolveQualifiedGo_congr (st : Store) (fuel : Nat) (qa qb sid : Nat)
    (q : Name) (b : Bool) (ha : q.length < qa) (hb : q.length < qb) :
    resolveQualifiedGo st fuel qa sid q b = resolveQualifiedGo st fuel qb sid q b := by
  match qa, qb with
  | qa' + 1, qb' + 1 =>
    unfold resolveQualifiedGo
    cases resolve st fuel sid (divideOn '.' q).1 b with
    | none => rfl
    | some root =>
      dsimp only
      by_cases h : ¬ (divideOn '.' q).2.length = 0
      · rw [if_pos h, if_pos h]
        have hlt := divideOn_rest_lt '.' q h
        exact resolveQualifiedGo_congr st fuel qa' qb' root (divideOn '.' q).2 false
          (by omega) (by omega)
      · rw [if_neg h, if_neg h]
termination_by q.length
decreasing_by
  simp_wf
  exact divideOn_rest_lt '.' q h

-- ═══════════════════════════════════════════════════════════════════════════
-- HELPER LEMMAS: the resolution primitive
-- ═══════════════════════════════════════════════════════════════════════════

theorem resolve_zero (st : Store) (sid : Nat) (n : Name) (b : Bool) :
    resolve st 0 sid n b = none := rfl

/-- One unfolding of `resolve` at positive fuel. -/
theorem resolve_succ (st : Store) (fuel sid : Nat) (n : Name) (b : Bool) :
    resolve st (fuel + 1) sid n b =
      match getScope st sid with
      | none => none
      | some s =>
        if (getBinding s.contributions n).isSome || !b then getBinding s.contributions n
        else
          match s.includedScopes.findSome? (fun inc => resolve st fuel inc n false) with
          | some v => some v
          | none =>
            match s.containerScope with
            | some c => resolve st fuel c n b
            | none => none := rfl

theorem resolve_noScope (st : Store) (fuel sid : Nat) (n : Name) (b : Bool)
    (h : getScope st sid = none) : resolve st fuel sid n b = none := by
  cases fuel with
  | zero => exact resolve_zero st sid n b
  | succ f =>
    rw [resolve_succ, h]

theorem resolve_local (st : Store) (fuel sid : Nat) (s : LocalScope) (n : Name)
    (v : Nat) (b : Bool) (hs : getScope st sid = some s)
    (hb : getBinding s.contributions n = some v) :
    resolve st (fuel + 1) sid n b = some v := by
  rw [resolve_succ, hs]
  simp only [hb, Option.isSome_some, Bool.true_or, if_true]

theorem resolve_false (st : Store) (fuel sid : Nat) (n : Name) :
    resolve st (fuel + 1) sid n false =
      (getScope st sid).bind (fun s => getBinding s.contributions n) := by
  rw [resolve_succ]
  cases hs : getScope st sid with
  | none => rfl
  | some s =>
    cases hb : getBinding s.contributions n with
    | none => simp [hb]
    | some v => simp [hb]

theorem resolve_false_any (st : Store) (fuel sid : Nat) (n : Name) :
    resolve st fuel sid n false =
      match fuel with
      | 0 => none
      | _ + 1 => (getScope st sid).bind (fun s => getBinding s.contributions n) := by
  cases fuel with
  | zero => exact resolve_zero st sid n false
  | succ f => exact resolve_false st f sid n

/-- With positive fuel, consulting the included scopes looks only at each
included scope's own local binding table. -/
theorem findSome?_resolve_false (st : Store) (fuel : Nat) (incs : List Nat)
    (n : Name) :
    incs.findSome? (fun i => resolve st (fuel + 1) i n false) =
      incs.findSome? (fun i => (getScope st i).bind
        (fun s => getBinding s.contributions n)) := by
  induction incs with
  | nil => rfl
  | cons inc rest ih =>
    cases hv : (getScope st inc).bind (fun s => getBinding s.contributions n) with
    | none =>
      rw [List.findSome?_cons_of_isNone rest (by simp [resolve_false, hv]),
        List.findSome?_cons_of_isNone rest (by simp [hv])]
      exact ih
    | some v =>
      rw [List.findSome?_cons_of_isSome rest (by simp [resolve_false, hv]),
        List.findSome?_cons_of_isSome rest (by simp [hv])]
      rw [resolve_false, hv]

theorem resolve_true_noLocal (st : Store) (fuel sid : Nat) (s : LocalScope)
    (n : Name) (hs : getScope st sid = some s)
    (hb : getBinding s.contributions n = none) :
    resolve st (fuel + 2) sid n true =
      match s.includedScopes.findSome?
          (fun i => (getScope st i).bind (fun s' => getBinding s'.contributions n)) with
      | some v => some v
      | none =>
        match s.containerScope with
        | some c => resolve st (fuel + 1) c n true
        | none => none := by
  show resolve st (fuel + 1 + 1) sid n true = _
  rw [resolve_succ st (fuel + 1) sid n true, hs]
  simp only [hb, Option.isSome_none, Bool.not_true, Bool.or_self, Bool.false_eq_true, if_false]
  rw [findSome?_resolve_false st fuel s.includedScopes n]

-- ═══════════════════════════════════════════════════════════════════════════
-- HELPER LEMMAS: qualified resolution and the divide-at-separator split
-- ═══════════════════════════════════════════════════════════════════════════

theorem resolveQualified_eq (st : Store) (fuel sid : Nat) (q : Name) (b : Bool) :
    resolveQualified st fuel sid q b =
      match resolve st fuel sid (divideOn '.' q).1 b with
      | none => Except.error (LinkErr.unresolvedQualified (divideOn '.' q).1)
      | some root =>
        if ¬ (divideOn '.' q).2.length = 0 then
          resolveQualified st fuel root (divideOn '.' q).2 false
        else Except.ok root := by
  show resolveQualifiedGo st fuel (q.length + 1) sid q b = _
  unfold resolveQualifiedGo
  cases resolve st fuel sid (divideOn '.' q).1 b with
  | none => rfl
  | some root =>
    dsimp only
    by_cases h : ¬ (divideOn '.' q).2.length = 0
    · rw [if_pos h, if_pos h]
      have hlt := divideOn_rest_lt '.' q h
      exact resolveQualifiedGo_congr st fuel q.length ((divideOn '.' q).2.length + 1)
        root (divideOn '.' q).2 false (by omega) (by omega)
    · rw [if_neg h, if_neg h]

theorem divideOnList_of_not_mem (sep : Char) (l : List Char) (h : sep ∉ l) :
    divideOnList sep l = (l, []) := by
  induction l with
  | nil => rfl
  | cons c cs ih =>
    have hc : ¬ c = sep := by
      intro e
      exact h (by rw [e]; exact List.mem_cons_self sep cs)
    have hcs : sep ∉ cs := fun m => h (List.mem_cons_of_mem c m)
    simp [divideOnList, hc, ih hcs]

theorem divideOnList_of_mem (sep : Char) (l : List Char) (h : sep ∈ l) :
    l = (divideOnList sep l).1 ++ sep :: (divideOnList sep l).2 ∧
      sep ∉ (divideOnList sep l).1 := by
  induction l with
  | nil => cases h
  | cons c cs ih =>
    by_cases hc : c = sep
    · subst hc
      simp [divideOnList]
    · have hcs : sep ∈ cs := by
        rw [List.mem_cons] at h
        rcases h with h | h
        · exact absurd h.symm hc
        · exact h
      obtain ⟨e1, e2⟩ := ih hcs
      have ed : divideOnList sep (c :: cs) =
          (c :: (divideOnList sep cs).1, (divideOnList sep cs).2) := by
        simp [divideOnList, hc]
      rw [ed]
      constructor
      · show c :: cs = (c :: (divideOnList sep cs).1) ++ sep :: (divideOnList sep cs).2
        rw [List.cons_append]
        exact congrArg (fun t => c :: t) e1
      · intro m
        rw [List.mem_cons] at m
        rcases m with m | m
        · exact hc m.symm
        · exact e2 m


theorem getScope_strip (st : Store) (i : Nat) :
    getScope (stripStore st) i =
      (getScope st i).map (fun s => ⟨s.contributions, [], none⟩) := by
  induction st with
  | nil => rfl
  | cons p rest ih =>
    have e : stripStore (p :: rest) =
        (p.1, (⟨p.2.contributions, [], none⟩ : LocalScope)) :: stripStore rest := rfl
    rw [e]
    unfold getScope
    by_cases h : p.1 = i
    · rw [List.find?_cons_of_pos _ (by simpa using h),
        List.find?_cons_of_pos _ (by simpa using h)]
      rfl
    · rw [List.find?_cons_of_neg _ (by simpa using h),
        List.find?_cons_of_neg _ (by simpa using h)]
      exact ih

theorem resolve_false_strip (st : Store) (fuel sid : Nat) (n : Name) :
    resolve (stripStore st) fuel sid n false = resolve st fuel sid n false := by
  rw [resolve_false_any, resolve_false_any]
  cases fuel with
  | zero => rfl
  | succ f =>
    rw [getScope_strip]
    cases getScope st sid with
    | none => rfl
    | some s => rfl

theorem resolveQualified_false_strip (st : Store) (fuel sid : Nat) (q : Name) :
    resolveQualified (stripStore st) fuel sid q false =
      resolveQualified st fuel sid q false := by
  rw [resolveQualified_eq, resolveQualified_eq, resolve_false_strip]
  cases resolve st fuel sid (divideOn '.' q).1 false with
  | none => rfl
  | some root =>
    by_cases h : ¬ (divideOn '.' q).2.length = 0
    · simp only [h, if_pos]
      exact resolveQualified_false_strip st fuel root (divideOn '.' q).2
    · simp only [h, if_neg, not_false_iff]
termination_by q.length
decreasing_by
  simp_wf
  exact divideOn_rest_lt '.' q h


theorem string_eq_of_data (s t : String) (h : s.data = t.data) : s = t := by
  cases s
  cases t
  cases h
  rfl

theorem string_length_zero (s : String) (h : s.length = 0) : s = "" :=
  string_eq_of_data s "" (List.length_eq_zero.mp h)

-- ═══════════════════════════════════════════════════════════════════════════
-- CLAIMS
-- ═══════════════════════════════════════════════════════════════════════════

/-- C1: for every scope and name, `resolve(name, allowLookup)` returns the
binding in the scope's local table whenever one is present, regardless of
`allowLookup`; otherwise, with `allowLookup = false` it returns not-found
immediately; otherwise it consults each included scope in order through that
scope's own local table only — included-scope consultation is exactly one
level deep, never reaching an included scope's own included scopes or
container — returning the first hit, and if none hits it delegates to the
container scope with the same flag, or returns not-found when there is no
container. -/
theorem claim_C1_resolve (st : Store) (fuel sid : Nat) (s : LocalScope) (n : Name)
    (hs : getScope st sid = some s) :
    (∀ v b, getBinding s.contributions n = some v → resolve st (fuel + 1) sid n b = some v) ∧
    (getBinding s.contributions n = none → resolve st (fuel + 1) sid n false = none) ∧
    (getBinding s.contributions n = none →
      resolve st (fuel + 2) sid n true =
        match s.includedScopes.findSome?
            (fun i => (getScope st i).bind (fun s' => getBinding s'.contributions n)) with
        | some v => some v
        | none =>
          match s.containerScope with
          | some c => resolve st (fuel + 1) c n true
          | none => none) := by
  refine ⟨fun v b hb => resolve_local st fuel sid s n v b hs hb, fun hb => ?_,
    fun hb => resolve_true_noLocal st fuel sid s n hs hb⟩
  rw [resolve_false st fuel sid n, hs]
  simp [hb]

/-- Witness for C1, on the store `stW`: scope 0 has no local "x", its included
scope 1 has none either (and scope 1's own included scope 2, which does bind
"x", is out of the one-level reach), so resolution escalates to the container
scope 3 and yields 30, not scope 2's 20; and with `allowLookup = false`,
resolution from scope 1 is not-found even though its included scope 2 binds
"x". -/
theorem claim_C1_witness :
    resolve stW 3 0 "x" true = some 30 ∧ resolve stW 2 1 "x" false = none := by
  have h0 := claim_C1_resolve stW 1 0 ⟨[], [1], some 3⟩ "x" rfl
  constructor
  · rw [h0.2.2 rfl]
    rfl
  · have h1 := claim_C1_resolve stW 1 1 ⟨[("y", 10)], [2], none⟩ "x" rfl
    exact h1.2.1 rfl

/-- C5: `resolveQualified` splits the qualified name at its first separator
into head and rest (head is the part before the first `.`, which it never
contains; when there is no separator the head is the whole name and the rest
is empty); if the head does not resolve via `resolve` it fails with a linking
error naming the head; if the rest is empty it returns the node the head
resolved to; otherwise it recurses on the rest within the resolved node's own
scope with `allowLookup = false` — and resolution with `allowLookup = false`
is insensitive to every scope's included scopes and container (stripping them
all changes nothing), so only an entity's own bindings are reachable through
the tail of a qualified path. -/
theorem claim_C5_resolveQualified (st : Store) (fuel sid : Nat) (q : Name) (b : Bool) :
    ('.' ∉ q.toList → divideOn '.' q = (q, "")) ∧
    ('.' ∈ q.toList →
      q.toList = (divideOn '.' q).1.toList ++ '.' :: (divideOn '.' q).2.toList ∧
        '.' ∉ (divideOn '.' q).1.toList) ∧
    (resolve st fuel sid (divideOn '.' q).1 b = none →
      resolveQualified st fuel sid q b =
        Except.error (LinkErr.unresolvedQualified (divideOn '.' q).1)) ∧
    (∀ root, resolve st fuel sid (divideOn '.' q).1 b = some root →
      ((divideOn '.' q).2 = "" → resolveQualified st fuel sid q b = Except.ok root) ∧
      (¬ (divideOn '.' q).2 = "" →
        resolveQualified st fuel sid q b =
          resolveQualified st fuel root (divideOn '.' q).2 false)) ∧
    (∀ sid' q', resolveQualified (stripStore st) fuel sid' q' false =
      resolveQualified st fuel sid' q' false) := by
  refine ⟨?_, ?_, ?_, ?_, fun sid' q' => resolveQualified_false_strip st fuel sid' q'⟩
  · intro h
    have e := divideOnList_of_not_mem '.' q.toList h
    show (String.mk (divideOnList '.' q.toList).1, String.mk (divideOnList '.' q.toList).2) =
      (q, "")
    rw [e]
    rfl
  · intro h
    obtain ⟨e1, e2⟩ := divideOnList_of_mem '.' q.toList h
    exact ⟨e1, e2⟩
  · intro h
    rw [resolveQualified_eq, h]
  · intro root h
    constructor
    · intro he
      rw [resolveQualified_eq, h]
      dsimp only
      have hlen : (divideOn '.' q).2.length = 0 := by rw [he]; rfl
      rw [if_neg (fun hcon => hcon hlen)]
    · intro he
      rw [resolveQualified_eq, h]
      dsimp only
      have hlen : ¬ (divideOn '.' q).2.length = 0 := by
        intro h0
        exact he (string_length_zero _ h0)
      rw [if_pos hlen]

/-- Witness for C5, on the store `stQ`: `"a.b"` resolves through `a`'s own
scope to node 2, while `"a.x"` fails with the unresolved-qualified-name error
for the segment `"x"` — scope 3 (reachable from scope 1 only via its
container) does bind "x", but the qualified tail runs with
`allowLookup = false` and cannot see it. -/
theorem claim_C5_witness :
    resolveQualified stQ 2 0 "a.b" true = Except.ok 2 ∧
    resolveQualified stQ 2 0 "a.x" true =
      Except.error (LinkErr.unresolvedQualified "x") := by
  constructor
  · have h := claim_C5_resolveQualified stQ 2 0 "a.b" true
    have h4 := (h.2.2.2.1 1 (by decide)).2 (by decide)
    rw [h4]
    rfl
  · have h2 := claim_C5_resolveQualified stQ 2 0 "a.x" true
    have h4 := (h2.2.2.2.1 1 (by decide)).2 (by decide)
    rw [h4]
    rfl

-- ═══════════════════════════════════════════════════════════════════════════
-- HELPER LEMMAS: well-formedness predicates, merge frame facts
-- ═══════════════════════════════════════════════════════════════════════════

theorem nodupKeys_cons (x : Option Name) (xs : List (Option Name)) :
    nodupKeys (x :: xs) = true ↔ x ∉ xs ∧ nodupKeys xs = true := by
  show (!(decide (x ∈ xs)) && nodupKeys xs) = true ↔ _
  rw [Bool.and_eq_true, Bool.not_eq_true', decide_eq_false_iff_not]

theorem nodupKeys_iff (xs : List (Option Name)) : nodupKeys xs = true ↔ xs.Nodup := by
  induction xs with
  | nil => simp [nodupKeys]
  | cons x rest ih =>
    rw [nodupKeys_cons, List.nodup_cons, ih]

theorem heredAll_forall (cs : List TNode) :
    heredAll cs = true ↔ ∀ x ∈ cs, heredB x = true := by
  induction cs with
  | nil => simp [heredAll]
  | cons c rest ih =>
    show (heredB c && heredAll rest) = true ↔ _
    rw [Bool.and_eq_true, ih]
    constructor
    · rintro ⟨h1, h2⟩ x hx
      rw [List.mem_cons] at hx
      rcases hx with hx | hx
      · rw [hx]; exact h1
      · exact h2 x hx
    · intro h
      exact ⟨h c (List.mem_cons_self c rest), fun x hx => h x (List.mem_cons_of_mem c hx)⟩

theorem heredB_parts (i : Nat) (d : NData) (cs : List TNode)
    (hb : heredB (TNode.mk i d cs) = true) (hpkg : d.kind = NK.pkg) :
    nodupKeys ((cs.filter (fun c => ¬ c.data.kind = NK.importK)).map
        (fun c => c.data.name)) = true ∧
    cs = cs.filter (fun c => c.data.kind = NK.importK) ++
      cs.filter (fun c => ¬ c.data.kind = NK.importK) ∧
    heredAll cs = true := by
  have hb' : ((if d.kind = NK.pkg then
      nodupKeys ((cs.filter (fun c => ¬ c.data.kind = NK.importK)).map
          (fun c => c.data.name)) &&
        decide (cs = cs.filter (fun c => c.data.kind = NK.importK) ++
          cs.filter (fun c => ¬ c.data.kind = NK.importK))
     else true) && heredAll cs) = true := hb
  rw [Bool.and_eq_true, if_pos hpkg, Bool.and_eq_true, decide_eq_true_eq] at hb'
  exact ⟨hb'.1.1, hb'.1.2, hb'.2⟩

theorem heightL_le_of_forall (l : List TNode) (k : Nat)
    (h : ∀ x ∈ l, heightT x <= k) : heightL l <= k := by
  induction l with
  | nil => exact Nat.zero_le k
  | cons c rest ih =>
    show max (heightT c) (heightL rest) <= k
    have h1 := h c (List.mem_cons_self c rest)
    have h2 := ih (fun x hx => h x (List.mem_cons_of_mem c hx))
    omega

theorem mergePackage_top_kinds (members : List TNode) (isolated : TNode)
    (hm : ∀ x ∈ members, ¬ x.data.kind = NK.importK)
    (hi : ¬ isolated.data.kind = NK.importK) :
    ∀ x ∈ mergePackage members isolated, ¬ x.data.kind = NK.importK := by
  intro x hx
  rw [mergePackage_eq] at hx
  by_cases hpkg : ¬ isolated.data.kind = NK.pkg
  · rw [if_pos hpkg, List.mem_append] at hx
    rcases hx with hx | hx
    · exact hm x (List.mem_of_mem_filter hx)
    · rw [List.mem_singleton] at hx
      rw [hx]
      exact hi
  · rw [if_neg hpkg] at hx
    cases hfind : members.find?
        (fun m => m.data.kind = NK.pkg ∧ m.data.name = isolated.data.name) with
    | none =>
      rw [hfind, List.mem_append] at hx
      rcases hx with hx | hx
      · exact hm x hx
      · rw [List.mem_singleton] at hx
        rw [hx]
        exact hi
    | some existent =>
      rw [hfind] at hx
      dsimp only at hx
      rw [List.mem_append] at hx
      rcases hx with hx | hx
      · exact hm x (List.mem_of_mem_filter hx)
      · rw [List.mem_singleton] at hx
        rw [hx]
        exact hm existent (List.mem_of_find?_eq_some hfind)

theorem mergeAll_top_kinds (isolateds : List TNode) :
    ∀ (members : List TNode),
      (∀ x ∈ members, ¬ x.data.kind = NK.importK) →
      (∀ x ∈ isolateds, ¬ x.data.kind = NK.importK) →
      ∀ x ∈ mergeAll isolateds members, ¬ x.data.kind = NK.importK := by
  induction isolateds with
  | nil => intro members hm _ x hx; exact hm x hx
  | cons i rest ih =>
    intro members hm hi x hx
    show ¬ x.data.kind = NK.importK
    have hstep := mergePackage_top_kinds members i hm (hi i (List.mem_cons_self i rest))
    exact ih (mergePackage members i) hstep
      (fun y hy => hi y (List.mem_cons_of_mem i hy)) x hx

theorem filter_imports_mk (i : Nat) (d : NData) (imps ms : List TNode)
    (himps : ∀ x ∈ imps, x.data.kind = NK.importK)
    (hms : ∀ x ∈ ms, ¬ x.data.kind = NK.importK) :
    importsOf (TNode.mk i d (imps ++ ms)) = imps ∧
    membersOf (TNode.mk i d (imps ++ ms)) = ms := by
  constructor
  · show (imps ++ ms).filter (fun c => c.data.kind = NK.importK) = imps
    rw [List.filter_append]
    rw [List.filter_eq_self.mpr (fun a ha => by simpa using himps a ha)]
    rw [List.filter_eq_nil_iff.mpr (fun a ha => by simpa using hms a ha)]
    simp
  · show (imps ++ ms).filter (fun c => ¬ c.data.kind = NK.importK) = ms
    rw [List.filter_append]
    rw [List.filter_eq_nil_iff.mpr (fun a ha => by simpa using himps a ha)]
    rw [List.filter_eq_self.mpr (fun a ha => by simpa using hms a ha)]
    simp

-- ═══════════════════════════════════════════════════════════════════════════
-- HELPER LEMMAS: merge rotation (for idempotence)
-- ═══════════════════════════════════════════════════════════════════════════

theorem mergeAll_fresh (L : List TNode) : ∀ (M : List TNode),
    (∀ m ∈ M, ∀ e ∈ L, ¬ m.data.name = e.data.name) →
    nodupKeys (L.map (fun n => n.data.name)) = true →
    mergeAll L M = M ++ L := by
  induction L with
  | nil => intro M _ _; simp [mergeAll]
  | cons e L' ih =>
    intro M hdisj hnames
    have hn1 : nodupKeys (e.data.name :: L'.map (fun n => n.data.name)) = true := by
      simpa using hnames
    obtain ⟨hnotin, hnames'⟩ := (nodupKeys_cons _ _).1 hn1
    have hstep : mergePackage M e = M ++ [e] := by
      rw [mergePackage_eq]
      by_cases hpkg : ¬ e.data.kind = NK.pkg
      · rw [if_pos hpkg]
        congr 1
        exact List.filter_eq_self.mpr (fun m hm => by
          simpa using hdisj m hm e (List.mem_cons_self e L'))
      · rw [if_neg hpkg]
        rw [List.find?_eq_none.mpr (fun m hm hpm => by
          have h2 : m.data.name = e.data.name := by
            simpa using (of_decide_eq_true hpm).2
          exact hdisj m hm e (List.mem_cons_self e L') h2)]
    show mergeAll L' (mergePackage M e) = M ++ e :: L'
    rw [hstep]
    have hd2 : ∀ m ∈ M ++ [e], ∀ x ∈ L', ¬ m.data.name = x.data.name := by
      intro m hm x hx
      rw [List.mem_append] at hm
      rcases hm with hm | hm
      · exact hdisj m hm x (List.mem_cons_of_mem e hx)
      · rw [List.mem_singleton] at hm
        rw [hm]
        intro heq
        apply hnotin
        rw [heq]
        exact List.mem_map_of_mem _ hx
    rw [ih (M ++ [e]) hd2 hnames']
    simp

theorem merged_self (e : TNode) (hpkg : e.data.kind = NK.pkg) (hb : heredB e = true)
    (hind : mergeAll (membersOf e) (membersOf e) = membersOf e) :
    TNode.mk e.id e.data (importsOf e ++ mergeAll (membersOf e) (membersOf e)) = e := by
  rw [hind]
  cases e with
  | mk i d cs =>
    obtain ⟨_, hpart, _⟩ := heredB_parts i d cs hb hpkg
    show TNode.mk i d
      (cs.filter (fun c => c.data.kind = NK.importK) ++
        cs.filter (fun c => ¬ c.data.kind = NK.importK)) = TNode.mk i d cs
    rw [← hpart]

theorem mergeAll_rotate (H : Nat) :
    ∀ (L A : List TNode), heightL L <= H →
      nodupKeys ((L ++ A).map (fun n => n.data.name)) = true →
      heredAll L = true →
      mergeAll L (L ++ A) = A ++ L := by
  induction H with
  | zero =>
    intro L A hH _ _
    cases L with
    | nil => simp [mergeAll]
    | cons e L' =>
      exfalso
      have h1 := heightT_pos e
      have h2 : max (heightT e) (heightL L') <= 0 := hH
      have h3 := Nat.le_max_left (heightT e) (heightL L')
      omega
  | succ H ih =>
    intro L
    induction L with
    | nil => intro A _ _ _; simp [mergeAll]
    | cons e L' ihL =>
      intro A hH hnames hok
      have hokE : heredB e = true ∧ heredAll L' = true := by
        have h : (heredB e && heredAll L') = true := hok
        simpa [Bool.and_eq_true] using h
      have hn1 : nodupKeys (e.data.name :: (L' ++ A).map (fun n => n.data.name)) = true := by
        simpa using hnames
      obtain ⟨hnotin, hnrest⟩ := (nodupKeys_cons _ _).1 hn1
      have hne : ∀ m ∈ L' ++ A, ¬ m.data.name = e.data.name := by
        intro m hm heq
        apply hnotin
        rw [← heq]
        exact List.mem_map_of_mem _ hm
      have hneq : ∀ m ∈ L' ++ A, ¬ m = e := by
        intro m hm he
        exact hne m hm (by rw [he])
      have hHe : heightT e <= H + 1 := by
        have h3 := Nat.le_max_left (heightT e) (heightL L')
        have h2 : max (heightT e) (heightL L') <= H + 1 := hH
        omega
      have hstep : mergePackage (e :: (L' ++ A)) e = (L' ++ A) ++ [e] := by
        rw [mergePackage_eq]
        by_cases hpkg : ¬ e.data.kind = NK.pkg
        · rw [if_pos hpkg]
          rw [List.filter_cons]
          rw [show (decide (¬ e.data.name = e.data.name)) = false from
            decide_eq_false_iff_not.mpr (not_not_intro rfl)]
          simp only [Bool.false_eq_true, if_false]
          rw [List.filter_eq_self.mpr (fun m hm => by simpa using hne m hm)]
        · have hpkg2 : e.data.kind = NK.pkg := not_not.1 hpkg
          rw [if_neg hpkg]
          rw [List.find?_cons_of_pos _ (by simp [hpkg2])]
          dsimp only
          rw [List.filter_cons]
          rw [show (decide (¬ e = e)) = false from
            decide_eq_false_iff_not.mpr (not_not_intro rfl)]
          simp only [Bool.false_eq_true, if_false]
          rw [List.filter_eq_self.mpr (fun m hm => by simpa using hneq m hm)]
          -- the merged package is `e` itself
          have hbE := hokE.1
          have hin : mergeAll (membersOf e) (membersOf e) = membersOf e := by
            have hmemH : heightL (membersOf e) <= H := by
              have hlt : ∀ x ∈ membersOf e, heightT x <= H := by
                intro x hx
                have := heightT_membersOf_lt x e hx
                omega
              exact heightL_le_of_forall _ H hlt
            have hnamesM : nodupKeys ((membersOf e ++ ([] : List TNode)).map
                (fun n => n.data.name)) = true := by
              rw [List.append_nil]
              cases e with
              | mk i d cs =>
                obtain ⟨hnd, _, _⟩ := heredB_parts i d cs hbE hpkg2
                exact hnd
            have hokM : heredAll (membersOf e) = true := by
              cases e with
              | mk i d cs =>
                obtain ⟨_, _, hall⟩ := heredB_parts i d cs hbE hpkg2
                rw [heredAll_forall]
                intro x hx
                exact (heredAll_forall cs).1 hall x (List.mem_of_mem_filter hx)
            have hA := ih (membersOf e) [] hmemH hnamesM hokM
            simpa using hA
          rw [merged_self e hpkg2 hbE hin]
      show mergeAll L' (mergePackage (e :: (L' ++ A)) e) = A ++ e :: L'
      rw [hstep, List.append_assoc]
      have hbound : heightL L' <= H + 1 := by
        have h2 : max (heightT e) (heightL L') <= H + 1 := hH
        have h3 := Nat.le_max_right (heightT e) (heightL L')
        omega
      have hnames2 : nodupKeys ((L' ++ (A ++ [e])).map (fun n => n.data.name)) = true := by
        rw [nodupKeys_iff]
        have hsrc : (e.data.name :: (L' ++ A).map (fun n => n.data.name)).Nodup := by
          rw [← nodupKeys_iff]
          exact hn1
        have hperm : ((L' ++ (A ++ [e])).map (fun n => n.data.name)).Perm
            (e.data.name :: (L' ++ A).map (fun n => n.data.name)) := by
          have h1 : (L' ++ (A ++ [e])).map (fun n => n.data.name) =
              ((L' ++ A).map (fun n => n.data.name)) ++ [e.data.name] := by
            simp
          rw [h1]
          exact List.perm_append_singleton _ _
        exact hperm.symm.nodup hsrc
      rw [ihL (A ++ [e]) hbound hnames2 hokE.2]
      simp

/-- C2 counterexample: merging the package `exA2` (named "a") into the member
list `[exA, exB]`, whose collision point is position 0, does NOT put the
merged package back at position 0: the merged package is appended at the end,
after the surviving member `exB`.  This refutes the claim's "replaced in
place at the collision point, not re-appended at the end". -/
theorem claim_C2_counterexample :
    mergePackage [exA, exB] exA2 = [exB, exMergedA] ∧
    ¬ mergePackage [exA, exB] exA2 = [exMergedA, exB] := by
  decide

/-- C2 (amended): merging preserves the relative order of the surviving
existing members (the prefix of the result is a sublist of the existing
list), appends a collision-free new entity at the end, and, when a new
package collides with an existing same-named package, removes the existing
package from its position and appends the merged package (member lists merged
recursively, every other field from the existing package) at the end of the
list. -/
theorem claim_C2_merge_order (members : List TNode) (isolated : TNode) :
    (∃ kept lastE, mergePackage members isolated = kept ++ [lastE] ∧
      kept.Sublist members) ∧
    (¬ isolated.data.kind = NK.pkg →
      mergePackage members isolated =
        members.filter (fun m => ¬ m.data.name = isolated.data.name) ++ [isolated]) ∧
    (isolated.data.kind = NK.pkg →
      members.find? (fun m => m.data.kind = NK.pkg ∧ m.data.name = isolated.data.name) =
        none →
      mergePackage members isolated = members ++ [isolated]) ∧
    (∀ existent, isolated.data.kind = NK.pkg →
      members.find? (fun m => m.data.kind = NK.pkg ∧ m.data.name = isolated.data.name) =
        some existent →
      mergePackage members isolated =
        members.filter (fun m => ¬ m = existent) ++
          [TNode.mk existent.id existent.data
            (importsOf existent ++ mergeAll (membersOf isolated) (membersOf existent))]) := by
  refine ⟨?_, ?_, ?_, ?_⟩
  · by_cases hpkg : ¬ isolated.data.kind = NK.pkg
    · exact ⟨members.filter (fun m => ¬ m.data.name = isolated.data.name), isolated,
        by rw [mergePackage_eq, if_pos hpkg], List.filter_sublist _⟩
    · cases hfind : members.find?
          (fun m => m.data.kind = NK.pkg ∧ m.data.name = isolated.data.name) with
      | none =>
        exact ⟨members, isolated, by rw [mergePackage_eq, if_neg hpkg, hfind],
          List.Sublist.refl members⟩
      | some existent =>
        exact ⟨members.filter (fun m => ¬ m = existent),
          TNode.mk existent.id existent.data
            (importsOf existent ++ mergeAll (membersOf isolated) (membersOf existent)),
          by rw [mergePackage_eq, if_neg hpkg, hfind], List.filter_sublist _⟩
  · intro hpkg
    rw [mergePackage_eq, if_pos hpkg]
  · intro hpkg hfind
    rw [mergePackage_eq, if_neg (not_not_intro hpkg), hfind]
  · intro existent hpkg hfind
    rw [mergePackage_eq, if_neg (not_not_intro hpkg), hfind]

/-- Witness for the amended C2, at the collision input of the counterexample:
the package case of `claim_C2_merge_order` computes the collision result. -/
theorem claim_C2_witness :
    mergePackage [exA, exB] exA2 =
      [exA, exB].filter (fun m => ¬ m = exA) ++
        [TNode.mk exA.id exA.data
          (importsOf exA ++ mergeAll (membersOf exA2) (membersOf exA))] :=
  (claim_C2_merge_order [exA, exB] exA2).2.2.2 exA rfl rfl

/-- C9: when a new package (with imports `imps` and members `ms`) collides
with an existing same-named package, every field of the merged package other
than its member list is the existing package's: its id and payload are the
existing package's, its import children are exactly the existing package's
imports, and the incoming imports `imps` contribute nothing — the merge
result does not mention them at all. -/
theorem claim_C9_existing_package_wins
    (members : List TNode) (i : Nat) (d : NData) (imps ms : List TNode)
    (himps : ∀ x ∈ imps, x.data.kind = NK.importK)
    (hms : ∀ x ∈ ms, ¬ x.data.kind = NK.importK)
    (existent : TNode)
    (hfind : members.find? (fun m => m.data.kind = NK.pkg ∧ m.data.name = d.name) =
      some existent)
    (hd : d.kind = NK.pkg) :
    mergePackage members (TNode.mk i d (imps ++ ms)) =
      members.filter (fun m => ¬ m = existent) ++
        [TNode.mk existent.id existent.data
          (importsOf existent ++ mergeAll ms (membersOf existent))] ∧
    importsOf (TNode.mk existent.id existent.data
        (importsOf existent ++ mergeAll ms (membersOf existent))) = importsOf existent := by
  obtain ⟨himp_eq, hmem_eq⟩ := filter_imports_mk i d imps ms himps hms
  constructor
  · rw [mergePackage_eq]
    rw [if_neg (not_not_intro (show (TNode.mk i d (imps ++ ms)).data.kind = NK.pkg from hd))]
    rw [show (TNode.mk i d (imps ++ ms)).data.name = d.name from rfl] at *
    rw [hfind]
    dsimp only
    rw [hmem_eq]
  · show (importsOf existent ++ mergeAll ms (membersOf existent)).filter
        (fun c => c.data.kind = NK.importK) = importsOf existent
    rw [List.filter_append]
    rw [show (importsOf existent).filter (fun c => c.data.kind = NK.importK) =
        importsOf existent from
      List.filter_eq_self.mpr (fun a ha => (List.mem_filter.mp ha).2)]
    rw [show (mergeAll ms (membersOf existent)).filter
          (fun c => c.data.kind = NK.importK) = [] from
      List.filter_eq_nil_iff.mpr (fun a ha => by
        have hmem : ∀ x ∈ membersOf existent, ¬ x.data.kind = NK.importK := by
          intro x hx
          simpa using (List.mem_filter.mp hx).2
        have := mergeAll_top_kinds ms (membersOf existent) hmem hms a ha
        simpa using this)]
    simp

/-- Witness for C9: merging the incoming package `exA2Imp` (one import, one
member) over the existing `exAImp` (a different import) keeps the existing
package's import list `[exImpOld]` and discards the incoming `exImpNew`. -/
theorem claim_C9_witness :
    mergePackage [exAImp] exA2Imp =
      [exAImp].filter (fun m => ¬ m = exAImp) ++
        [TNode.mk exAImp.id exAImp.data
          (importsOf exAImp ++ mergeAll [exX] (membersOf exAImp))] ∧
    importsOf (TNode.mk exAImp.id exAImp.data
        (importsOf exAImp ++ mergeAll [exX] (membersOf exAImp))) = importsOf exAImp := by
  have h := claim_C9_existing_package_wins [exAImp] 13 ⟨NK.pkg, some "a", false, ""⟩
    [exImpNew] [exX] (by decide) (by decide) exAImp rfl rfl
  exact h

/-- C8: for a list of top-level entities with hereditarily collision-free
names (pairwise-distinct entity names at the top level and inside every
package), merging the list a second time into the result of merging it once
yields the same member list: merge is idempotent under the no-collision
precondition. -/
theorem claim_C8_merge_idempotent (L : List TNode)
    (hnames : nodupKeys (L.map (fun n => n.data.name)) = true)
    (hok : heredAll L = true) :
    mergeAll L (mergeAll L []) = mergeAll L [] := by
  have base : mergeAll L [] = L :=
    mergeAll_fresh L [] (fun m hm => absurd hm (List.not_mem_nil m)) hnames
  rw [base]
  have h := mergeAll_rotate (heightL L) L [] (Nat.le.refl)
    (by simpa using hnames) hok
  simpa using h

/-- Witness for C8, on the collision-free list `exList` (a package with two
distinct members, and a singleton): merging it twice equals merging it
once. -/
theorem claim_C8_witness :
    mergeAll exList (mergeAll exList []) = mergeAll exList [] :=
  claim_C8_merge_idempotent exList (by decide) (by decide)

-- ═══════════════════════════════════════════════════════════════════════════
-- HELPER LEMMAS: the scope store
-- ═══════════════════════════════════════════════════════════════════════════

theorem getScope_map_replace (st : Store) (i : Nat) (s : LocalScope)
    (h : st.any (fun p => p.1 = i) = true) :
    getScope (st.map (fun p => if p.1 = i then (i, s) else p)) i = some s := by
  induction st with
  | nil => simp at h
  | cons p rest ih =>
    rw [List.any_cons] at h
    rw [List.map_cons]
    by_cases hp : p.1 = i
    · rw [if_pos hp]
      unfold getScope
      rw [List.find?_cons_of_pos _ (by simp)]
      rfl
    · rw [if_neg hp]
      have h2 : rest.any (fun p => p.1 = i) = true := by
        simpa [hp] using h
      unfold getScope
      rw [List.find?_cons_of_neg _ (by simpa using hp)]
      exact ih h2

theorem getScope_append_single (st : Store) (i : Nat) (s : LocalScope)
    (h : st.any (fun p => p.1 = i) = false) :
    getScope (st ++ [(i, s)]) i = some s := by
  unfold getScope
  rw [List.find?_append]
  have h1 : st.find? (fun p => p.1 = i) = none := by
    rw [List.find?_eq_none]
    intro x hx hpx
    rw [List.any_eq_false] at h
    exact h x hx hpx
  rw [h1]
  rw [List.find?_cons_of_pos _ (by simp)]
  rfl

theorem getScope_putScope_self (st : Store) (k : Nat) (s : LocalScope) :
    getScope (putScope st k s) k = some s := by
  unfold putScope
  by_cases h : st.any (fun p => p.1 = k)
  · rw [if_pos h]
    exact getScope_map_replace st k s h
  · rw [if_neg h]
    exact getScope_append_single st k s (by
      cases ha : st.any (fun p => p.1 = k) with
      | false => rfl
      | true => exact absurd ha h)

theorem find?_map_replace_other (st : Store) (k : Nat) (s : LocalScope) (j : Nat)
    (h : ¬ j = k) :
    (st.map (fun p => if p.1 = k then (k, s) else p)).find? (fun p => p.1 = j) =
      st.find? (fun p => p.1 = j) := by
  induction st with
  | nil => rfl
  | cons p rest ih =>
    rw [List.map_cons]
    by_cases hp : p.1 = k
    · rw [if_pos hp]
      rw [List.find?_cons_of_neg _ (by simpa using fun e => h e.symm)]
      rw [List.find?_cons_of_neg _ (by
        simp only [decide_eq_true_eq]
        intro e
        exact h (by rw [← e, hp]))]
      exact ih
    · rw [if_neg hp]
      by_cases hj : p.1 = j
      · rw [List.find?_cons_of_pos _ (by simpa using hj),
          List.find?_cons_of_pos _ (by simpa using hj)]
      · rw [List.find?_cons_of_neg _ (by simpa using hj),
          List.find?_cons_of_neg _ (by simpa using hj)]
        exact ih

theorem getScope_putScope_other (st : Store) (k : Nat) (s : LocalScope) (j : Nat)
    (h : ¬ j = k) :
    getScope (putScope st k s) j = getScope st j := by
  unfold putScope
  by_cases ha : st.any (fun p => p.1 = k)
  · rw [if_pos ha]
    unfold getScope
    rw [find?_map_replace_other st k s j h]
  · rw [if_neg ha]
    unfold getScope
    rw [List.find?_append]
    rw [List.find?_cons_of_neg _ (by simpa using fun e => h e.symm)]
    cases st.find? (fun p => p.1 = j) <;> rfl

theorem getScope_modifyScope_self (st : Store) (k : Nat) (f : LocalScope → LocalScope) :
    getScope (modifyScope st k f) k = (getScope st k).map f := by
  unfold modifyScope getScope
  induction st with
  | nil => rfl
  | cons p rest ih =>
    rw [List.map_cons]
    by_cases hp : p.1 = k
    · rw [if_pos hp]
      rw [List.find?_cons_of_pos _ (by simpa using hp),
        List.find?_cons_of_pos _ (by simpa using hp)]
      rfl
    · rw [if_neg hp]
      rw [List.find?_cons_of_neg _ (by simpa using hp),
        List.find?_cons_of_neg _ (by simpa using hp)]
      exact ih

theorem getScope_modifyScope_other (st : Store) (k : Nat) (f : LocalScope → LocalScope)
    (j : Nat) (h : ¬ j = k) :
    getScope (modifyScope st k f) j = getScope st j := by
  unfold modifyScope getScope
  induction st with
  | nil => rfl
  | cons p rest ih =>
    rw [List.map_cons]
    by_cases hp : p.1 = k
    · rw [if_pos hp]
      rw [List.find?_cons_of_neg _ (by
        simp only [decide_eq_true_eq]
        intro e
        exact h (by rw [← e, hp]))]
      rw [List.find?_cons_of_neg _ (by
        simp only [decide_eq_true_eq]
        intro e
        exact h (by rw [← e, hp]))]
      exact ih
    · rw [if_neg hp]
      by_cases hj : p.1 = j
      · rw [List.find?_cons_of_pos _ (by simpa using hj),
          List.find?_cons_of_pos _ (by simpa using hj)]
      · rw [List.find?_cons_of_neg _ (by simpa using hj),
          List.find?_cons_of_neg _ (by simpa using hj)]
        exact ih

theorem getScope_modify_map {α : Type} (g : LocalScope → α) (st : Store) (k : Nat)
    (f : LocalScope → LocalScope) (i : Nat) (hf : ∀ s, g (f s) = g s) :
    (getScope (modifyScope st k f) i).map g = (getScope st i).map g := by
  by_cases h : i = k
  · rw [h, getScope_modifyScope_self]
    cases getScope st k with
    | none => rfl
    | some s =>
      show some (g (f s)) = some (g s)
      rw [hf s]
  · rw [getScope_modifyScope_other st k f i h]

theorem register_containerScope (s : LocalScope) (l : List Contribution) :
    (register s l).containerScope = s.containerScope := rfl

theorem register_includedScopes (s : LocalScope) (l : List Contribution) :
    (register s l).includedScopes = s.includedScopes := rfl

-- ═══════════════════════════════════════════════════════════════════════════
-- HELPER LEMMAS: pass 1
-- ═══════════════════════════════════════════════════════════════════════════

theorem pass1Step_container_self (st : Store) (e : FlatEntry) :
    (getScope (pass1Step st e) e.1.id).map (fun s => s.containerScope) =
      some (pass1Container e.1 e.2.1 e.2.2) := by
  obtain ⟨n, p, gp⟩ := e
  unfold pass1Step pass1Container
  dsimp only
  by_cases hent : isEntity n.data.kind
  · rw [if_pos hent]
    cases p with
    | none =>
      rw [getScope_putScope_self]
      rfl
    | some pp =>
      dsimp only
      rw [getScope_modify_map (fun s => s.containerScope) _ _ _ _
        (fun s => register_containerScope s _)]
      rw [getScope_putScope_self]
      rfl
  · rw [if_neg hent]
    cases p with
    | none =>
      rw [getScope_putScope_self]
      rfl
    | some pp =>
      rw [getScope_putScope_self]
      rfl

theorem pass1Step_preserve_container (st : Store) (e : FlatEntry) (i : Nat)
    (h : ¬ e.1.id = i) :
    (getScope (pass1Step st e) i).map (fun s => s.containerScope) =
      (getScope st i).map (fun s => s.containerScope) := by
  obtain ⟨n, p, gp⟩ := e
  unfold pass1Step
  dsimp only
  by_cases hent : isEntity n.data.kind
  · rw [if_pos hent]
    cases p with
    | none =>
      rw [getScope_putScope_other st n.id _ i (fun e2 => h e2.symm)]
    | some pp =>
      dsimp only
      rw [getScope_modify_map (fun s => s.containerScope) _ _ _ _
        (fun s => register_containerScope s _)]
      rw [getScope_putScope_other st n.id _ i (fun e2 => h e2.symm)]
  · rw [if_neg hent]
    cases p with
    | none =>
      rw [getScope_putScope_other st n.id _ i (fun e2 => h e2.symm)]
    | some pp =>
      rw [getScope_putScope_other st n.id _ i (fun e2 => h e2.symm)]

theorem pass1_fold_preserve_container (l : List FlatEntry) (st : Store) (i : Nat)
    (h : ∀ e ∈ l, ¬ e.1.id = i) :
    (getScope (l.foldl pass1Step st) i).map (fun s => s.containerScope) =
      (getScope st i).map (fun s => s.containerScope) := by
  induction l generalizing st with
  | nil => rfl
  | cons e rest ih =>
    rw [List.foldl_cons]
    rw [ih (pass1Step st e) (fun x hx => h x (List.mem_cons_of_mem e hx))]
    exact pass1Step_preserve_container st e i (h e (List.mem_cons_self e rest))

/-- C4: in the first scope-building pass, the fresh scope attached to a
Reference whose parent is a Class or a Mixin has the grandparent's scope as
its container — never the class/mixin's own scope — and the fresh scope of
every other (node, parent) pair has the parent's scope as its container
(`pass1Container` is exactly that selector); and the container chosen for a
node survives the rest of the pass unchanged. -/
theorem claim_C4_pass1_container (root : TNode)
    (hids : ((flatten none none root).map (fun e => e.1.id)).Nodup) :
    ∀ e ∈ flatten none none root,
      (getScope (pass1 (flatten none none root)) e.1.id).map
        (fun s => s.containerScope) =
        some (pass1Container e.1 e.2.1 e.2.2) := by
  intro e he
  obtain ⟨l1, l2, hsplit⟩ := List.append_of_mem he
  have hl2 : ∀ e2 ∈ l2, ¬ e2.1.id = e.1.id := by
    have hmap : ((l1 ++ e :: l2).map (fun x => x.1.id)).Nodup := by
      rw [← hsplit]
      exact hids
    rw [List.map_append, List.map_cons] at hmap
    have h2 := hmap.of_append_right
    have h3 := List.nodup_cons.mp h2
    intro e2 he2 heq
    apply h3.1
    rw [← heq]
    exact List.mem_map_of_mem _ he2
  unfold pass1
  rw [hsplit, List.foldl_append, List.foldl_cons]
  rw [pass1_fold_preserve_container l2 _ e.1.id hl2]
  exact pass1Step_container_self _ e

/-- Witness for C4: in the tree `environment (id 0) → class (id 1) →
supertype reference (id 2)`, the reference's scope has the environment's
scope (0) as container, not the class's scope (1). -/
theorem claim_C4_witness :
    (getScope (pass1 (flatten none none exC4Root)) 2).map
      (fun s => s.containerScope) = some (some 0) := by
  have h := claim_C4_pass1_container exC4Root (by decide)
    (exC4Ref, some exC4Class, some exC4Root) (by decide)
  exact h.trans (by decide)

-- ═══════════════════════════════════════════════════════════════════════════
-- HELPER LEMMAS: the binding table
-- ═══════════════════════════════════════════════════════════════════════════

theorem getBinding_map_replace_other (m : List Contribution) (k' : Name) (v : Nat)
    (k : Name) (h : ¬ k' = k) :
    getBinding (m.map (fun c => if c.1 = k' then (k', v) else c)) k =
      getBinding m k := by
  induction m with
  | nil => rfl
  | cons c rest ih =>
    rw [List.map_cons]
    by_cases hc : c.1 = k'
    · rw [if_pos hc]
      unfold getBinding
      rw [List.find?_cons_of_neg _ (by simpa using h)]
      rw [List.find?_cons_of_neg _ (by
        simp only [decide_eq_true_eq]
        intro e
        exact h (by rw [← hc, e]))]
      exact ih
    · rw [if_neg hc]
      by_cases hk : c.1 = k
      · unfold getBinding
        rw [List.find?_cons_of_pos _ (by simpa using hk),
          List.find?_cons_of_pos _ (by simpa using hk)]
      · unfold getBinding
        rw [List.find?_cons_of_neg _ (by simpa using hk),
          List.find?_cons_of_neg _ (by simpa using hk)]
        exact ih

theorem getBinding_map_replace_self (m : List Contribution) (k' : Name) (v : Nat)
    (h : m.any (fun c => c.1 = k') = true) :
    getBinding (m.map (fun c => if c.1 = k' then (k', v) else c)) k' = some v := by
  induction m with
  | nil => simp at h
  | cons c rest ih =>
    rw [List.any_cons] at h
    rw [List.map_cons]
    by_cases hc : c.1 = k'
    · rw [if_pos hc]
      unfold getBinding
      rw [List.find?_cons_of_pos _ (by simp)]
      rfl
    · rw [if_neg hc]
      have h2 : rest.any (fun c => c.1 = k') = true := by
        simpa [hc] using h
      unfold getBinding
      rw [List.find?_cons_of_neg _ (by simpa using hc)]
      exact ih h2

theorem getBinding_setBinding (m : List Contribution) (k' : Name) (v : Nat) (k : Name) :
    getBinding (setBinding m k' v) k = if k' = k then some v else getBinding m k := by
  unfold setBinding
  by_cases ha : m.any (fun c => c.1 = k')
  · rw [if_pos ha]
    by_cases hk : k' = k
    · rw [if_pos hk, ← hk]
      exact getBinding_map_replace_self m k' v ha
    · rw [if_neg hk]
      exact getBinding_map_replace_other m k' v k hk
  · rw [if_neg ha]
    have ha2 : m.any (fun c => c.1 = k') = false := by
      cases hval : m.any (fun c => c.1 = k') with
      | false => rfl
      | true => exact absurd hval ha
    have hnone : m.find? (fun c => c.1 = k') = none := by
      rw [List.find?_eq_none]
      intro x hx hpx
      rw [List.any_eq_false] at ha2
      exact ha2 x hx hpx
    by_cases hk : k' = k
    · rw [if_pos hk]
      unfold getBinding
      rw [List.find?_append]
      rw [show m.find? (fun c => c.1 = k) = none from hk ▸ hnone]
      rw [List.find?_cons_of_pos _ (by simp [hk])]
      rfl
    · rw [if_neg hk]
      unfold getBinding
      rw [List.find?_append]
      rw [show (([(k', v)] : List Contribution).find? (fun c => c.1 = k)) = none from by
        rw [List.find?_cons_of_neg _ (by simpa using hk)]
        rfl]
      cases m.find? (fun c => c.1 = k) <;> rfl

theorem getBinding_foldl (l : List Contribution) :
    ∀ (m : List Contribution) (k : Name),
      getBinding (l.foldl (fun acc c => setBinding acc c.1 c.2) m) k =
        match l.reverse.find? (fun c => c.1 = k) with
        | some c => some c.2
        | none => getBinding m k := by
  induction l with
  | nil => intro m k; rfl
  | cons c l' ih =>
    intro m k
    rw [List.foldl_cons, ih (setBinding m c.1 c.2) k]
    rw [List.reverse_cons, List.find?_append]
    cases hf : l'.reverse.find? (fun d => d.1 = k) with
    | some d => rfl
    | none =>
      rw [getBinding_setBinding m c.1 c.2 k]
      by_cases hc : c.1 = k
      · rw [if_pos hc]
        rw [show (([c] : List Contribution).find? (fun d => d.1 = k)) = some c from
          List.find?_cons_of_pos _ (by simpa using hc)]
        rfl
      · rw [if_neg hc]
        rw [show (([c] : List Contribution).find? (fun d => d.1 = k)) = none from by
          rw [List.find?_cons_of_neg _ (by simpa using hc)]
          rfl]
        rfl

theorem getBinding_register (s : LocalScope) (l : List Contribution) (k : Name) :
    getBinding (register s l).contributions k =
      match l.reverse.find? (fun c => c.1 = k) with
      | some c => some c.2
      | none => getBinding s.contributions k :=
  getBinding_foldl l s.contributions k

/-- C10: registering a contribution overwrites any earlier binding for the
same name; within one registration batch the last listed contribution for a
name wins (the binding after `register` is the last entry of the batch for
that name, falling back to the old table); and in the two-pass scope
assignment a Field registered in Pass 2 shadows a same-named sibling Entity
registered in Pass 1 in their shared parent scope: in `exShadowTree` the
package's scope maps "x" to the field (id 6), not the singleton (id 5), and
resolution from the package's scope yields the field. -/
theorem claim_C10_register_shadowing :
    (∀ (s : LocalScope) (k : Name) (v : Nat),
      getBinding (register s [(k, v)]).contributions k = some v) ∧
    (∀ (s : LocalScope) (l : List Contribution) (k : Name),
      getBinding (register s l).contributions k =
        match l.reverse.find? (fun c => c.1 = k) with
        | some c => some c.2
        | none => getBinding s.contributions k) ∧
    (∃ stS fS, pass2 hierZero (flatten none none exShadowTree) = Except.ok (stS, fS) ∧
      (getScope stS 4).map (fun s => getBinding s.contributions "x") = some (some 6) ∧
      resolve stS (stS.length + 1) 4 "x" true = some 6) := by
  refine ⟨?_, fun s l k => getBinding_register s l k, ?_⟩
  · intro s k v
    rw [getBinding_register]
    rw [show (([(k, v)] : List Contribution).reverse.find? (fun c => c.1 = k)) =
      some (k, v) from by simp]
  · refine ⟨_, _, rfl, ?_, ?_⟩
    · decide
    · decide

-- ═══════════════════════════════════════════════════════════════════════════
-- HELPER LEMMAS: fresh ids and the id index
-- ═══════════════════════════════════════════════════════════════════════════

mutual

theorem relabel_ids (t : TNode) (k : Nat) (gp p : Option TNode) :
    ((flatten gp p (relabel k t).1).map (fun e => e.1.id)) =
      List.range' k (countT t) ∧ (relabel k t).2 = k + countT t := by
  match t with
  | .mk i d cs =>
    constructor
    · show ((TNode.mk k d (relabelList (k + 1) cs).1, p, gp) ::
          flattenList p (some (TNode.mk k d (relabelList (k + 1) cs).1))
            (relabelList (k + 1) cs).1).map (fun e => e.1.id) =
        List.range' k (countT (TNode.mk i d cs))
      rw [List.map_cons]
      rw [(relabelList_ids cs (k + 1) p
        (some (TNode.mk k d (relabelList (k + 1) cs).1))).1]
      show k :: List.range' (k + 1) (countList cs) = List.range' k (1 + countList cs)
      rw [Nat.add_comm 1 (countList cs), List.range'_succ]
    · show (relabelList (k + 1) cs).2 = k + countT (TNode.mk i d cs)
      rw [(relabelList_ids cs (k + 1) none none).2]
      show k + 1 + countList cs = k + (1 + countList cs)
      omega
termination_by sizeOf t

theorem relabelList_ids (cs : List TNode) (k : Nat) (gp p : Option TNode) :
    ((flattenList gp p (relabelList k cs).1).map (fun e => e.1.id)) =
      List.range' k (countList cs) ∧ (relabelList k cs).2 = k + countList cs := by
  match cs with
  | [] =>
    constructor
    · rfl
    · show k = k + 0
      omega
  | c :: rest =>
    constructor
    · show ((flatten gp p (relabel k c).1 ++
          flattenList gp p (relabelList (relabel k c).2 rest).1).map (fun e => e.1.id)) =
        List.range' k (countT c + countList rest)
      rw [List.map_append]
      rw [(relabel_ids c k gp p).1]
      rw [(relabel_ids c k gp p).2]
      rw [(relabelList_ids rest (k + countT c) gp p).1]
      rw [List.range'_append_1]
      rw [Nat.add_comm (countList rest) (countT c)]
    · show (relabelList (relabel k c).2 rest).2 = k + (countT c + countList rest)
      rw [(relabelList_ids rest (relabel k c).2 gp p).2]
      rw [(relabel_ids c k gp p).2]
      omega
termination_by sizeOf cs

end

theorem nodeById_self (flat : List FlatEntry)
    (hids : (flat.map (fun e => e.1.id)).Nodup) :
    ∀ e ∈ flat, nodeById flat e.1.id = some e.1 := by
  induction flat with
  | nil => intro e he; cases he
  | cons f rest ih =>
    rw [List.map_cons, List.nodup_cons] at hids
    intro e he
    rw [List.mem_cons] at he
    rcases he with he | he
    · rw [he]
      unfold nodeById
      rw [List.find?_cons_of_pos _ (by simp)]
      rfl
    · have hne : ¬ f.1.id = e.1.id := by
        intro heq
        apply hids.1
        rw [heq]
        exact List.mem_map_of_mem _ he
      unfold nodeById
      rw [List.find?_cons_of_neg _ (by simpa using hne)]
      exact ih hids.2 e he

theorem nodeById_absent (flat : List FlatEntry) (i : Nat)
    (h : i ∉ flat.map (fun e => e.1.id)) : nodeById flat i = none := by
  unfold nodeById
  rw [List.find?_eq_none.mpr (fun e he hpe => ?_)]
  · rfl
  · apply h
    have : e.1.id = i := by simpa using hpe
    rw [← this]
    exact List.mem_map_of_mem _ he

/-- C7: after a successful link every node of the returned Environment,
including the Environment itself, carries a freshly generated id (the
pre-order counter values `0, 1, 2, …`), all ids are pairwise distinct, id
lookup round-trips (looking a node's id up on the Environment returns that
node), and looking up an id not present in the index yields the
distinguished not-found result `none`. -/
theorem claim_C7_identity (hier : Nat → List Nat) (news base : List TNode)
    (env : TNode) (st : Store)
    (hlink : link hier news base = Except.ok (env, st)) :
    ((allNodes env).map (fun n => n.id)) =
      List.range' 0 (countT (TNode.mk 0 envData (mergeAll news base))) ∧
    ((allNodes env).map (fun n => n.id)).Nodup ∧
    (∀ nd ∈ allNodes env, getNodeById env nd.id = some nd) ∧
    (∀ i, i ∉ (allNodes env).map (fun n => n.id) → getNodeById env i = none) := by
  have henv : env = (relabel 0 (TNode.mk 0 envData (mergeAll news base))).1 := by
    unfold link scopedEnv at hlink
    dsimp only at hlink
    cases h2 : pass2 hier
        (flatten none none (relabel 0 (TNode.mk 0 envData (mergeAll news base))).1) with
    | error e =>
      rw [h2] at hlink
      cases hlink
    | ok pr =>
      obtain ⟨st2, f2⟩ := pr
      rw [h2] at hlink
      dsimp only at hlink
      cases h3 : ((flatten none none
          (relabel 0 (TNode.mk 0 envData (mergeAll news base))).1).find?
            (refUnresolved st2)) with
      | some e =>
        rw [h3] at hlink
        cases hlink
      | none =>
        rw [h3] at hlink
        have := (Except.ok.injEq _ _).mp hlink
        exact ((Prod.mk.injEq _ _ _ _).mp this).1.symm
  have hids : ((allNodes env).map (fun n => n.id)) =
      List.range' 0 (countT (TNode.mk 0 envData (mergeAll news base))) := by
    rw [henv]
    unfold allNodes
    rw [List.map_map]
    exact (relabel_ids (TNode.mk 0 envData (mergeAll news base)) 0 none none).1
  have hnd : ((allNodes env).map (fun n => n.id)).Nodup := by
    rw [hids]
    exact List.nodup_range' 0 _
  refine ⟨hids, hnd, ?_, ?_⟩
  · intro nd hnd2
    obtain ⟨e, he, rfl⟩ := List.mem_map.mp hnd2
    have hflat : ((flatten none none env).map (fun e => e.1.id)).Nodup := by
      have : ((flatten none none env).map (fun e => e.1.id)) =
          ((allNodes env).map (fun n => n.id)) := by
        unfold allNodes
        rw [List.map_map]
        rfl
      rw [this]
      exact hnd
    exact nodeById_self (flatten none none env) hflat e he
  · intro i hi
    apply nodeById_absent
    intro hmem
    apply hi
    unfold allNodes
    rw [List.map_map]
    exact hmem

/-- Witness for C7: linking the `wollok` base package produces an
environment with distinct pre-order ids whose id index round-trips, and
lookup of the absent id 99 yields `none`. -/
theorem claim_C7_witness :
    ∃ env st, link hierZero [exWollok] [] = Except.ok (env, st) ∧
      ((allNodes env).map (fun n => n.id)).Nodup ∧
      (∀ nd ∈ allNodes env, getNodeById env nd.id = some nd) ∧
      getNodeById env 99 = none := by
  refine ⟨_, _, rfl, ?_, ?_, ?_⟩
  · exact (claim_C7_identity hierZero [exWollok] [] _ _ rfl).2.1
  · exact (claim_C7_identity hierZero [exWollok] [] _ _ rfl).2.2.1
  · exact (claim_C7_identity hierZero [exWollok] [] _ _ rfl).2.2.2 99 (by decide)

/-- C6: once scope assignment has succeeded, if every Reference in the
environment resolves from its own scope the link operation returns the
fully-linked environment (in which, by that same hypothesis, every
Reference's target is reachable via its own scope's resolution); and if some
Reference does not resolve, the link operation fails with an error naming an
unresolved reference's name and its originating source location — no
environment is returned. -/
theorem claim_C6_validation (hier : Nat → List Nat) (news base : List TNode)
    (env : TNode) (st : Store)
    (hscoped : scopedEnv hier news base = Except.ok (env, st)) :
    ((∀ r ∈ allNodes env, r.data.kind = NK.reference → (targetOf st r).isSome = true) →
      link hier news base = Except.ok (env, st)) ∧
    (∀ r, r ∈ allNodes env → r.data.kind = NK.reference → targetOf st r = none →
      ∃ r2, r2 ∈ allNodes env ∧ r2.data.kind = NK.reference ∧ targetOf st r2 = none ∧
        link hier news base = Except.error
          (LinkErr.unlinkedReference (nameStrOf r2) r2.data.source)) := by
  constructor
  · intro hall
    unfold link
    rw [hscoped]
    dsimp only
    rw [List.find?_eq_none.mpr (fun e he hpe => ?_)]
    unfold refUnresolved at hpe
    by_cases hk : e.1.data.kind = NK.reference
    · rw [if_pos hk] at hpe
      have h1 := hall e.1 (List.mem_map_of_mem _ he) hk
      rw [Option.isNone_iff_eq_none] at hpe
      rw [hpe] at h1
      cases h1
    · rw [if_neg hk] at hpe
      cases hpe
  · intro r hr hk ht
    obtain ⟨e, he, hre⟩ := List.mem_map.mp hr
    cases hf : ((flatten none none env).find? (refUnresolved st)) with
    | none =>
      exfalso
      rw [List.find?_eq_none] at hf
      apply hf e he
      unfold refUnresolved
      rw [hre, if_pos hk, ht]
      rfl
    | some e2 =>
      have hmem2 := List.mem_of_find?_eq_some hf
      have hp2 := List.find?_some hf
      unfold refUnresolved at hp2
      by_cases hk2 : e2.1.data.kind = NK.reference
      · rw [if_pos hk2] at hp2
        refine ⟨e2.1, List.mem_map_of_mem _ hmem2, hk2,
          Option.isNone_iff_eq_none.mp hp2, ?_⟩
        unfold link
        rw [hscoped]
        dsimp only
        rw [hf]
      · rw [if_neg hk2] at hp2
        cases hp2

/-- Witness for C6: a package `b` holding a Reference to the sibling package
`a` links successfully — every reference resolves — and the returned
environment is the scoped one. -/
theorem claim_C6_witness :
    ∃ env st, scopedEnv hierZero [exWollok, exPkgA, exPkgB] [] = Except.ok (env, st) ∧
      link hierZero [exWollok, exPkgA, exPkgB] [] = Except.ok (env, st) := by
  refine ⟨_, _, rfl, ?_⟩
  exact (claim_C6_validation hierZero [exWollok, exPkgA, exPkgB] [] _ _ rfl).1 (by decide)

-- ═══════════════════════════════════════════════════════════════════════════
-- HELPER LEMMAS: pass 2, step by step
-- ═══════════════════════════════════════════════════════════════════════════

theorem nodupNat_cons (x : Nat) (xs : List Nat) :
    nodupNat (x :: xs) = true ↔ x ∉ xs ∧ nodupNat xs = true := by
  show (!(decide (x ∈ xs)) && nodupNat xs) = true ↔ _
  rw [Bool.and_eq_true, Bool.not_eq_true', decide_eq_false_iff_not]

theorem nodupNat_iff (xs : List Nat) : nodupNat xs = true ↔ xs.Nodup := by
  induction xs with
  | nil => simp [nodupNat]
  | cons x rest ih =>
    rw [nodupNat_cons, List.nodup_cons, ih]

theorem flatOk_facts (flat : List FlatEntry) (h : flatOk flat = true) :
    (flat.map (fun e => e.1.id)).Nodup ∧
      ∀ e ∈ flat, e.1.id < flat.length ∧ ∀ p, e.2.1 = some p → p.id < flat.length := by
  unfold flatOk at h
  rw [Bool.and_eq_true] at h
  constructor
  · exact (nodupNat_iff _).1 h.1
  · intro e he
    have h2 := (List.all_eq_true.mp h.2) e he
    rw [Bool.and_eq_true] at h2
    constructor
    · exact of_decide_eq_true h2.1
    · intro p hp
      have h3 := h2.2
      rw [hp] at h3
      exact of_decide_eq_true h3

theorem stepEnv_notEnv (flat : List FlatEntry) (st : Store) (n : TNode)
    (h : ¬ n.data.kind = NK.environment) : stepEnv flat st n = Except.ok st := by
  unfold stepEnv
  rw [if_neg h]

theorem stepModule_notModule (hier : Nat → List Nat) (st : Store) (n : TNode)
    (h : ¬ isModule n.data.kind = true) : stepModule hier st n = st := by
  unfold stepModule
  rw [if_neg h]

theorem stepContrib_entity (st : Store) (n : TNode) (p : Option TNode)
    (h : isEntity n.data.kind = true) : stepContrib st n p = st := by
  unfold stepContrib
  cases p with
  | none => rfl
  | some pp =>
    dsimp only
    rw [if_pos h]

theorem stepImports_fire (flat : List FlatEntry) (st : Store) (f : Nat) (n : TNode)
    (binds : List Contribution) (gens : List Nat)
    (h1 : n.data.kind = NK.pkg) (h2 : ¬ importsOf n = [])
    (hb : simpleImportBindings flat st (st.length + 1)
      ((importsOf n).filter (fun imp => !imp.data.isGeneric)) = Except.ok binds)
    (hg : genericImportTargets st (st.length + 1)
      ((importsOf n).filter (fun imp => imp.data.isGeneric)) = Except.ok gens) :
    stepImports flat st f n = Except.ok
      (modifyScope (putScope st f (register ⟨[], [], none⟩ binds)) n.id
        (fun s => ⟨s.contributions, f :: gens ++ s.includedScopes, s.containerScope⟩),
       f + 1) := by
  unfold stepImports
  rw [if_pos ⟨h1, h2⟩, hb]
  dsimp only
  rw [hg]

theorem stepEnv_getScope (flat : List FlatEntry) (st : Store) (n : TNode)
    (stA : Store) (h : stepEnv flat st n = Except.ok stA) (i : Nat)
    (hni : ¬ n.id = i) : getScope stA i = getScope st i := by
  unfold stepEnv at h
  by_cases he : n.data.kind = NK.environment
  · rw [if_pos he] at h
    cases hg : globalContributions flat st n.id with
    | error err =>
      rw [hg] at h
      cases h
    | ok cs =>
      rw [hg] at h
      injection h with h
      rw [← h]
      exact getScope_modifyScope_other st n.id _ i (fun e => hni e.symm)
  · rw [if_neg he] at h
    injection h with h
    rw [← h]

theorem stepEnv_getScope_map_included (flat : List FlatEntry) (st : Store) (n : TNode)
    (stA : Store) (h : stepEnv flat st n = Except.ok stA) (i : Nat) :
    (getScope stA i).map (fun s => s.includedScopes) =
      (getScope st i).map (fun s => s.includedScopes) := by
  unfold stepEnv at h
  by_cases he : n.data.kind = NK.environment
  · rw [if_pos he] at h
    cases hg : globalContributions flat st n.id with
    | error err =>
      rw [hg] at h
      cases h
    | ok cs =>
      rw [hg] at h
      injection h with h
      rw [← h]
      exact getScope_modify_map (fun s => s.includedScopes) st n.id _ i
        (fun s => register_includedScopes s _)
  · rw [if_neg he] at h
    injection h with h
    rw [← h]

theorem stepImports_cases (flat : List FlatEntry) (st : Store) (f : Nat) (n : TNode)
    (stB : Store) (fB : Nat) (h : stepImports flat st f n = Except.ok (stB, fB)) :
    f <= fB ∧
    (∀ i, ¬ n.id = i → i < f → getScope stB i = getScope st i) ∧
    (∀ i, ¬ n.id = i → i < f →
      (getScope stB i).map (fun s => s.includedScopes) =
        (getScope st i).map (fun s => s.includedScopes)) := by
  unfold stepImports at h
  by_cases hc : n.data.kind = NK.pkg ∧ ¬ importsOf n = []
  · rw [if_pos hc] at h
    cases hb : simpleImportBindings flat st (st.length + 1)
        ((importsOf n).filter (fun imp => !imp.data.isGeneric)) with
    | error err =>
      rw [hb] at h
      cases h
    | ok binds =>
      rw [hb] at h
      dsimp only at h
      cases hg : genericImportTargets st (st.length + 1)
          ((importsOf n).filter (fun imp => imp.data.isGeneric)) with
      | error err =>
        rw [hg] at h
        cases h
      | ok gens =>
        rw [hg] at h
        dsimp only at h
        injection h with h
        have hst : stB = modifyScope (putScope st f (register ⟨[], [], none⟩ binds)) n.id
            (fun s => ⟨s.contributions, f :: gens ++ s.includedScopes, s.containerScope⟩) :=
          (((Prod.mk.injEq _ _ _ _).mp h).1).symm
        have hf : fB = f + 1 := (((Prod.mk.injEq _ _ _ _).mp h).2).symm
        refine ⟨by omega, ?_, ?_⟩
        · intro i hni hif
          rw [hst]
          rw [getScope_modifyScope_other _ n.id _ i (fun e => hni e.symm)]
          exact getScope_putScope_other st f _ i (by omega)
        · intro i hni hif
          rw [hst]
          rw [getScope_modifyScope_other _ n.id _ i (fun e => hni e.symm)]
          rw [getScope_putScope_other st f _ i (by omega)]
  · rw [if_neg hc] at h
    injection h with h
    have hst : stB = st := (((Prod.mk.injEq _ _ _ _).mp h).1).symm
    have hf : fB = f := (((Prod.mk.injEq _ _ _ _).mp h).2).symm
    refine ⟨by omega, ?_, ?_⟩
    · intro i _ _
      rw [hst]
    · intro i _ _
      rw [hst]

theorem stepModule_getScope (hier : Nat → List Nat) (st : Store) (n : TNode) (i : Nat)
    (hni : ¬ n.id = i) : getScope (stepModule hier st n) i = getScope st i := by
  unfold stepModule
  by_cases hm : isModule n.data.kind = true
  · rw [if_pos hm]
    exact getScope_modifyScope_other st n.id _ i (fun e => hni e.symm)
  · rw [if_neg hm]

theorem stepContrib_getScope (st : Store) (n : TNode) (p : Option TNode) (i : Nat)
    (hpi : ∀ pp, p = some pp → ¬ pp.id = i) :
    getScope (stepContrib st n p) i = getScope st i := by
  unfold stepContrib
  cases p with
  | none => rfl
  | some pp =>
    dsimp only
    by_cases he : isEntity n.data.kind = true
    · rw [if_pos he]
    · rw [if_neg he]
      exact getScope_modifyScope_other st pp.id _ i (fun e => hpi pp rfl e.symm)

theorem stepContrib_getScope_map_included (st : Store) (n : TNode) (p : Option TNode)
    (i : Nat) :
    (getScope (stepContrib st n p) i).map (fun s => s.includedScopes) =
      (getScope st i).map (fun s => s.includedScopes) := by
  unfold stepContrib
  cases p with
  | none => rfl
  | some pp =>
    dsimp only
    by_cases he : isEntity n.data.kind = true
    · rw [if_pos he]
    · rw [if_neg he]
      exact getScope_modify_map (fun s => s.includedScopes) st pp.id _ i
        (fun s => register_includedScopes s _)

theorem pass2Step_preserve (hier : Nat → List Nat) (flat : List FlatEntry)
    (st : Store) (f : Nat) (e : FlatEntry) (st2 : Store) (f2 : Nat)
    (hok : pass2Step hier flat (st, f) e = Except.ok (st2, f2)) :
    f <= f2 ∧
    (∀ i, i < f → ¬ e.1.id = i → (∀ p, e.2.1 = some p → ¬ p.id = i) →
      getScope st2 i = getScope st i) ∧
    (∀ i, i < f → ¬ e.1.id = i →
      (getScope st2 i).map (fun s => s.includedScopes) =
        (getScope st i).map (fun s => s.includedScopes)) := by
  unfold pass2Step at hok
  cases hE : stepEnv flat st e.1 with
  | error err =>
    rw [hE] at hok
    cases hok
  | ok stA =>
    rw [hE] at hok
    dsimp only at hok
    cases hI : stepImports flat stA f e.1 with
    | error err =>
      rw [hI] at hok
      cases hok
    | ok pr =>
      obtain ⟨stB, fB⟩ := pr
      rw [hI] at hok
      dsimp only at hok
      injection hok with hok
      have hst2 : st2 = stepContrib (stepModule hier stB e.1) e.1 e.2.1 :=
        (((Prod.mk.injEq _ _ _ _).mp hok).1).symm
      have hf2 : f2 = fB := (((Prod.mk.injEq _ _ _ _).mp hok).2).symm
      obtain ⟨hmono, hpres, hpresI⟩ := stepImports_cases flat stA f e.1 stB fB hI
      refine ⟨by omega, ?_, ?_⟩
      · intro i hif hni hpi
        rw [hst2]
        rw [stepContrib_getScope _ e.1 e.2.1 i hpi]
        rw [stepModule_getScope hier stB e.1 i hni]
        rw [hpres i hni hif]
        exact stepEnv_getScope flat st e.1 stA hE i hni
      · intro i hif hni
        rw [hst2]
        rw [stepContrib_getScope_map_included _ e.1 e.2.1 i]
        have h1 : (getScope (stepModule hier stB e.1) i).map (fun s => s.includedScopes) =
            (getScope stB i).map (fun s => s.includedScopes) := by
          rw [stepModule_getScope hier stB e.1 i hni]
        rw [h1, hpresI i hni hif]
        exact stepEnv_getScope_map_included flat st e.1 stA hE i

theorem pass2From_preserve (hier : Nat → List Nat) (flat : List FlatEntry)
    (l : List FlatEntry) :
    ∀ (st : Store) (f : Nat) (st' : Store) (f' : Nat),
      pass2From hier flat (st, f) l = Except.ok (st', f') →
      f <= f' ∧
      (∀ i, i < f → (∀ e ∈ l, ¬ e.1.id = i ∧ ∀ p, e.2.1 = some p → ¬ p.id = i) →
        getScope st' i = getScope st i) ∧
      (∀ i, i < f → (∀ e ∈ l, ¬ e.1.id = i) →
        (getScope st' i).map (fun s => s.includedScopes) =
          (getScope st i).map (fun s => s.includedScopes)) := by
  induction l with
  | nil =>
    intro st f st' f' h
    injection h with h
    have h1 : st' = st := (((Prod.mk.injEq _ _ _ _).mp h).1).symm
    have h2 : f' = f := (((Prod.mk.injEq _ _ _ _).mp h).2).symm
    refine ⟨by omega, ?_, ?_⟩
    · intro i _ _
      rw [h1]
    · intro i _ _
      rw [h1]
  | cons e rest ih =>
    intro st f st' f' h
    unfold pass2From at h
    cases hs : pass2Step hier flat (st, f) e with
    | error err =>
      rw [hs] at h
      cases h
    | ok acc2 =>
      obtain ⟨stm, fm⟩ := acc2
      rw [hs] at h
      dsimp only at h
      obtain ⟨hm1, hp1, hpi1⟩ := pass2Step_preserve hier flat st f e stm fm hs
      obtain ⟨hm2, hp2, hpi2⟩ := ih stm fm st' f' h
      refine ⟨by omega, ?_, ?_⟩
      · intro i hif hl
        have he := hl e (List.mem_cons_self e rest)
        rw [hp2 i (by omega) (fun x hx => hl x (List.mem_cons_of_mem e hx))]
        exact hp1 i hif he.1 he.2
      · intro i hif hl
        have he := hl e (List.mem_cons_self e rest)
        rw [hpi2 i (by omega) (fun x hx => hl x (List.mem_cons_of_mem e hx))]
        exact hpi1 i hif he

theorem pass1Step_included_self (st : Store) (e : FlatEntry) :
    (getScope (pass1Step st e) e.1.id).map (fun s => s.includedScopes) = some [] := by
  obtain ⟨n, p, gp⟩ := e
  unfold pass1Step
  dsimp only
  by_cases hent : isEntity n.data.kind
  · rw [if_pos hent]
    cases p with
    | none =>
      rw [getScope_putScope_self]
      rfl
    | some pp =>
      dsimp only
      rw [getScope_modify_map (fun s => s.includedScopes) _ _ _ _
        (fun s => register_includedScopes s _)]
      rw [getScope_putScope_self]
      rfl
  · rw [if_neg hent]
    cases p with
    | none =>
      rw [getScope_putScope_self]
      rfl
    | some pp =>
      rw [getScope_putScope_self]
      rfl

theorem pass1Step_preserve_included (st : Store) (e : FlatEntry) (i : Nat)
    (h : ¬ e.1.id = i) :
    (getScope (pass1Step st e) i).map (fun s => s.includedScopes) =
      (getScope st i).map (fun s => s.includedScopes) := by
  obtain ⟨n, p, gp⟩ := e
  unfold pass1Step
  dsimp only
  by_cases hent : isEntity n.data.kind
  · rw [if_pos hent]
    cases p with
    | none =>
      rw [getScope_putScope_other st n.id _ i (fun e2 => h e2.symm)]
    | some pp =>
      dsimp only
      rw [getScope_modify_map (fun s => s.includedScopes) _ _ _ _
        (fun s => register_includedScopes s _)]
      rw [getScope_putScope_other st n.id _ i (fun e2 => h e2.symm)]
  · rw [if_neg hent]
    cases p with
    | none =>
      rw [getScope_putScope_other st n.id _ i (fun e2 => h e2.symm)]
    | some pp =>
      rw [getScope_putScope_other st n.id _ i (fun e2 => h e2.symm)]

theorem pass1_fold_preserve_included (l : List FlatEntry) (st : Store) (i : Nat)
    (h : ∀ e ∈ l, ¬ e.1.id = i) :
    (getScope (l.foldl pass1Step st) i).map (fun s => s.includedScopes) =
      (getScope st i).map (fun s => s.includedScopes) := by
  induction l generalizing st with
  | nil => rfl
  | cons e rest ih =>
    rw [List.foldl_cons]
    rw [ih (pass1Step st e) (fun x hx => h x (List.mem_cons_of_mem e hx))]
    exact pass1Step_preserve_included st e i (h e (List.mem_cons_self e rest))

theorem pass1_included (flat : List FlatEntry)
    (hids : (flat.map (fun e => e.1.id)).Nodup) :
    ∀ e ∈ flat, (getScope (pass1 flat) e.1.id).map (fun s => s.includedScopes) =
      some [] := by
  intro e he
  obtain ⟨l1, l2, hsplit⟩ := List.append_of_mem he
  have hl2 : ∀ e2 ∈ l2, ¬ e2.1.id = e.1.id := by
    have hmap : ((l1 ++ e :: l2).map (fun x => x.1.id)).Nodup := by
      rw [← hsplit]
      exact hids
    rw [List.map_append, List.map_cons] at hmap
    have h2 := hmap.of_append_right
    have h3 := List.nodup_cons.mp h2
    intro e2 he2 heq
    apply h3.1
    rw [← heq]
    exact List.mem_map_of_mem _ he2
  unfold pass1
  rw [hsplit, List.foldl_append, List.foldl_cons]
  rw [pass1_fold_preserve_included l2 _ e.1.id hl2]
  exact pass1Step_included_self _ e

-- ═══════════════════════════════════════════════════════════════════════════
-- HELPER LEMMAS: decomposing a pass-2 run
-- ═══════════════════════════════════════════════════════════════════════════

theorem pass2From_cons (hier : Nat → List Nat) (flat : List FlatEntry)
    (acc : Store × Nat) (e : FlatEntry) (rest : List FlatEntry) :
    pass2From hier flat acc (e :: rest) =
      match pass2Step hier flat acc e with
      | Except.error err => Except.error err
      | Except.ok acc2 => pass2From hier flat acc2 rest := rfl

theorem pass2From_append (hier : Nat → List Nat) (flat : List FlatEntry)
    (xs ys : List FlatEntry) (acc : Store × Nat) :
    pass2From hier flat acc (xs ++ ys) =
      match pass2From hier flat acc xs with
      | Except.error err => Except.error err
      | Except.ok acc2 => pass2From hier flat acc2 ys := by
  induction xs generalizing acc with
  | nil => rfl
  | cons x rest ih =>
    rw [List.cons_append, pass2From_cons, pass2From_cons]
    cases hs : pass2Step hier flat acc x with
    | error err => rfl
    | ok acc2 =>
      dsimp only
      exact ih acc2

/-- C3: for a package with at least one import, pass 2 turns the package
scope's included-scopes list into exactly the fresh auxiliary import scope
(holding the simple-import bindings) followed by the generic imports' target
scopes in declaration order.  Consequently resolution from the package's
scope prefers the package's own local bindings first, then the simple-import
bindings, then each generic import's target scope in declaration order, and
only then the container chain. -/
theorem claim_C3_import_precedence (hier : Nat → List Nat)
    (flat l1 l2 : List FlatEntry) (eP : FlatEntry)
    (st1 stF : Store) (f1 fF : Nat) (binds : List Contribution) (gens : List Nat)
    (hflat : flatOk flat = true)
    (hsplit : flat = l1 ++ eP :: l2)
    (hpkg : eP.1.data.kind = NK.pkg)
    (himps : ¬ importsOf eP.1 = [])
    (hpre : pass2From hier flat (pass1 flat, flat.length) l1 = Except.ok (st1, f1))
    (hbinds : simpleImportBindings flat st1 (st1.length + 1)
      ((importsOf eP.1).filter (fun imp => !imp.data.isGeneric)) = Except.ok binds)
    (hgens : genericImportTargets st1 (st1.length + 1)
      ((importsOf eP.1).filter (fun imp => imp.data.isGeneric)) = Except.ok gens)
    (hfull : pass2 hier flat = Except.ok (stF, fF)) :
    ∃ sP, getScope stF eP.1.id = some sP ∧
      sP.includedScopes = f1 :: gens ∧
      getScope stF f1 = some (register ⟨[], [], none⟩ binds) ∧
      (∀ fuel n v, getBinding sP.contributions n = some v →
        resolve stF (fuel + 1) eP.1.id n true = some v) ∧
      (∀ fuel n v, getBinding sP.contributions n = none →
        getBinding (register ⟨[], [], none⟩ binds).contributions n = some v →
        resolve stF (fuel + 2) eP.1.id n true = some v) ∧
      (∀ fuel n, getBinding sP.contributions n = none →
        getBinding (register ⟨[], [], none⟩ binds).contributions n = none →
        resolve stF (fuel + 2) eP.1.id n true =
          match gens.findSome?
              (fun g => (getScope stF g).bind (fun s => getBinding s.contributions n)) with
          | some v => some v
          | none =>
            match sP.containerScope with
            | some c => resolve stF (fuel + 1) c n true
            | none => none) := by
  obtain ⟨hids, hbounds⟩ := flatOk_facts flat hflat
  have hePmem : eP ∈ flat := by
    rw [hsplit]
    exact List.mem_append_right l1 (List.mem_cons_self eP l2)
  have hePlt : eP.1.id < flat.length := (hbounds eP hePmem).1
  have hnotenv : ¬ eP.1.data.kind = NK.environment := by
    rw [hpkg]
    intro hc
    cases hc
  have hnotmod : ¬ isModule eP.1.data.kind = true := by
    rw [hpkg]
    decide
  have hent : isEntity eP.1.data.kind = true := by
    rw [hpkg]
    rfl
  have hstep : pass2Step hier flat (st1, f1) eP = Except.ok
      (modifyScope (putScope st1 f1 (register ⟨[], [], none⟩ binds)) eP.1.id
        (fun s => ⟨s.contributions, f1 :: gens ++ s.includedScopes, s.containerScope⟩),
       f1 + 1) := by
    unfold pass2Step
    dsimp only
    rw [stepEnv_notEnv flat st1 eP.1 hnotenv]
    dsimp only
    rw [stepImports_fire flat st1 f1 eP.1 binds gens hpkg himps hbinds hgens]
    dsimp only
    rw [stepModule_notModule hier _ eP.1 hnotmod,
      stepContrib_entity _ eP.1 eP.2.1 hent]
  have h0 : pass2From hier flat (pass1 flat, flat.length) (l1 ++ eP :: l2) =
      Except.ok (stF, fF) := by
    rw [← hsplit]
    exact hfull
  rw [pass2From_append hier flat l1 (eP :: l2) (pass1 flat, flat.length)] at h0
  rw [hpre] at h0
  dsimp only at h0
  rw [pass2From_cons, hstep] at h0
  dsimp only at h0
  obtain ⟨hmono1, _, hpi1⟩ :=
    pass2From_preserve hier flat l1 (pass1 flat) flat.length st1 f1 hpre
  have hl1ids : ∀ e2 ∈ l1, ¬ e2.1.id = eP.1.id := by
    have hmap : ((l1.map (fun x => x.1.id)) ++ ((eP :: l2).map (fun x => x.1.id))).Nodup := by
      rw [← List.map_append, ← hsplit]
      exact hids
    have hdisj := List.disjoint_of_nodup_append hmap
    intro e2 he2 heq
    apply hdisj (List.mem_map_of_mem _ he2)
    rw [heq, List.map_cons]
    exact List.mem_cons_self _ _
  have hpre_inc : (getScope st1 eP.1.id).map (fun s => s.includedScopes) = some [] := by
    rw [hpi1 eP.1.id hePlt hl1ids]
    exact pass1_included flat hids eP hePmem
  obtain ⟨s1, hs1, hs1inc⟩ : ∃ s1, getScope st1 eP.1.id = some s1 ∧
      s1.includedScopes = [] := by
    cases hg : getScope st1 eP.1.id with
    | none =>
      rw [hg] at hpre_inc
      cases hpre_inc
    | some s1 =>
      rw [hg] at hpre_inc
      refine ⟨s1, rfl, ?_⟩
      simpa using hpre_inc
  have hstB2P : getScope (modifyScope (putScope st1 f1 (register ⟨[], [], none⟩ binds))
        eP.1.id
        (fun s => ⟨s.contributions, f1 :: gens ++ s.includedScopes, s.containerScope⟩))
        eP.1.id =
      some ⟨s1.contributions, f1 :: gens ++ s1.includedScopes, s1.containerScope⟩ := by
    rw [getScope_modifyScope_self]
    rw [getScope_putScope_other st1 f1 _ eP.1.id (by omega)]
    rw [hs1]
    rfl
  have hstB2F : getScope (modifyScope (putScope st1 f1 (register ⟨[], [], none⟩ binds))
        eP.1.id
        (fun s => ⟨s.contributions, f1 :: gens ++ s.includedScopes, s.containerScope⟩))
        f1 =
      some (register ⟨[], [], none⟩ binds) := by
    rw [getScope_modifyScope_other _ eP.1.id _ f1 (by omega)]
    rw [getScope_putScope_self]
  obtain ⟨_, hp2, hpi2⟩ := pass2From_preserve hier flat l2 _ (f1 + 1) stF fF h0
  have hl2f1 : ∀ e2 ∈ l2, ¬ e2.1.id = f1 ∧ ∀ p, e2.2.1 = some p → ¬ p.id = f1 := by
    intro e2 he2
    have hm : e2 ∈ flat := by
      rw [hsplit]
      exact List.mem_append_right l1 (List.mem_cons_of_mem eP he2)
    obtain ⟨hb1, hb2⟩ := hbounds e2 hm
    constructor
    · omega
    · intro p hp
      have := hb2 p hp
      omega
  have hl2ids : ∀ e2 ∈ l2, ¬ e2.1.id = eP.1.id := by
    have hmap2 : ((l1.map (fun x => x.1.id)) ++ ((eP :: l2).map (fun x => x.1.id))).Nodup := by
      rw [← List.map_append, ← hsplit]
      exact hids
    have h2 := hmap2.of_append_right
    rw [List.map_cons] at h2
    have h3 := List.nodup_cons.mp h2
    intro e2 he2 heq
    apply h3.1
    rw [← heq]
    exact List.mem_map_of_mem _ he2
  have hFimp : getScope stF f1 = some (register ⟨[], [], none⟩ binds) := by
    rw [hp2 f1 (by omega) hl2f1]
    exact hstB2F
  have hFinc : (getScope stF eP.1.id).map (fun s => s.includedScopes) =
      some (f1 :: gens ++ s1.includedScopes) := by
    rw [hpi2 eP.1.id (by omega) hl2ids]
    rw [hstB2P]
    rfl
  obtain ⟨sP, hsP, hsPinc⟩ : ∃ sP, getScope stF eP.1.id = some sP ∧
      sP.includedScopes = f1 :: gens := by
    cases hg : getScope stF eP.1.id with
    | none =>
      rw [hg] at hFinc
      cases hFinc
    | some sP =>
      rw [hg] at hFinc
      refine ⟨sP, rfl, ?_⟩
      have h4 : sP.includedScopes = f1 :: gens ++ s1.includedScopes := by
        simpa using hFinc
      rw [h4, hs1inc]
      simp
  refine ⟨sP, hsP, hsPinc, hFimp, ?_, ?_, ?_⟩
  · intro fuel n v hb
    exact resolve_local stF fuel eP.1.id sP n v true hsP hb
  · intro fuel n v hbp hbi
    have hS : ((getScope stF f1).bind (fun s' => getBinding s'.contributions n)).isSome
        = true := by
      rw [hFimp, Option.some_bind, hbi]
      rfl
    rw [resolve_true_noLocal stF fuel eP.1.id sP n hsP hbp, hsPinc]
    rw [List.findSome?_cons_of_isSome gens hS]
    simp only [hFimp, Option.some_bind, hbi]
  · intro fuel n hbp hbi
    have hN : ((getScope stF f1).bind (fun s' => getBinding s'.contributions n)).isNone
        = true := by
      rw [hFimp, Option.some_bind, hbi]
      rfl
    rw [resolve_true_noLocal stF fuel eP.1.id sP n hsP hbp, hsPinc]
    rw [List.findSome?_cons_of_isNone gens hN]

/-- Witness for C3: on the concrete tree, after pass 2 the importing
package's scope includes the fresh import scope 13 followed by the generic
import's target scope 6; resolving `X` from the package's scope yields the
simple import's target 5 even though the generic import's target scope binds
`X` to 7. -/
theorem claim_C3_witness :
    (∃ sP, getScope exC3StF exC3B.id = some sP ∧ sP.includedScopes = [13, 6] ∧
      getScope exC3StF 13 = some (register ⟨[], [], none⟩ [("X", 5)])) ∧
    resolve exC3StF 3 exC3B.id "X" true = some 5 ∧
    getScope exC3StF 6 = some ⟨[("X", 7)], [], some 0⟩ := by
  refine ⟨?_, by decide, by decide⟩
  obtain ⟨sP, h1, h2, h3, _, _, _⟩ :=
    claim_C3_import_precedence hierZero exC3Flat exC3L1 exC3L2 exC3EP
      exC3St1 exC3StF 13 14 [("X", 5)] [6]
      (by decide) rfl rfl (by decide) rfl rfl rfl rfl
  exact ⟨sP, h1, h2, h3⟩

end WollokLinker
